import Mathlib

/-!
The GitHub client of cv-site, its service operations and the route handlers:
a shallow embedding of `githubservice/github_client.go`,
`githubservice/github_service.go`, `githubservice/models.go` and
`routes/search.go`.

Conventions of the embedding.

* A Go `string` and a Go `[]byte` are both sequences of bytes; both are
  modelled by `String` (text, so a body is taken to be valid UTF-8), and the
  conversion `string(b)` is the identity. A `[]byte` result that may be `nil`
  is an `Option String`.
* A Go `int` has 64 bits; a status code is an `Int`.
* A Go `error` is a `GoError`; the `nil` error is `none`.
* The outside world (the JSON encoder of request bodies, the part of URL
  parsing that is not modelled, the HTTP transport, the wording of library
  errors) is a parameter `World`. Every operation returns, next to its Go
  results, the list `sent` of the requests it handed to the transport.
* `json.Unmarshal` is modelled by a reader of JSON texts (`parseJSON`) and by
  functions that store a JSON value in the models as `encoding/json` does.
-/

namespace CvSite

/-! ## Errors -/

/-- A Go `error` value, tagged by where it was made. `errorf` is an error made
by `fmt.Errorf` in this repository; the other constructors are errors made by
the libraries the code calls. -/
inductive GoError where
  /-- the value of `fmt.Errorf(...)`, with its formatted text -/
  | errorf (msg : String)
  /-- an error of `json.Marshal` -/
  | marshal (msg : String)
  /-- an error of `http.NewRequest` -/
  | newRequest (msg : String)
  /-- an error of `http.DefaultClient.Do` -/
  | transport (msg : String)
  /-- an error of reading a response body -/
  | read (msg : String)
  /-- a `*json.SyntaxError` of `json.Unmarshal` -/
  | jsonSyntaxError (msg : String)
  /-- a `*json.UnmarshalTypeError` of `json.Unmarshal` -/
  | unmarshalTypeError (msg : String)
  deriving DecidableEq, Repr

/-- The method `Error()` of a Go error: its text. -/
def GoError.Error : GoError → String
  | .errorf m => m
  | .marshal m => m
  | .newRequest m => m
  | .transport m => m
  | .read m => m
  | .jsonSyntaxError m => m
  | .unmarshalTypeError m => m

/-! ## HTTP headers (`net/http.Header`, `net/textproto`) -/

/-- The bytes allowed in a header field name (`validHeaderFieldByte`): the
token characters of RFC 7230. -/
def validHeaderFieldByte (c : Char) : Bool :=
  c.isAlphanum || "!#$%&'*+-.^_`|~".data.contains c

/-- The loop of `canonicalMIMEHeaderKey`: upper case for the first letter and
for a letter after a dash, lower case for the other letters. -/
def canonicalLoop : Bool → List Char → List Char
  | _, [] => []
  | upper, c :: cs =>
    let c1 := if upper && c.isLower then c.toUpper
              else if !upper && c.isUpper then c.toLower else c
    c1 :: canonicalLoop (c1 == '-') cs

/-- `textproto.CanonicalMIMEHeaderKey`: a key with a byte that is not allowed in
a field name is returned unchanged, any other key is put in canonical form. -/
def CanonicalMIMEHeaderKey (s : String) : String :=
  if s.data.all validHeaderFieldByte then String.mk (canonicalLoop true s.data) else s

/-- `http.Header`, a `map[string][]string`: the entries of the map, at most
one of them read for a key (the first). -/
abbrev Header := List (String × List String)

/-- Reading the map at a key (`h[key]`); `nil` when the key is absent. -/
def Header.lookup (h : Header) (key : String) : List String :=
  match List.lookup key h with
  | some v => v
  | none => []

/-- `Header.Get`: the first value stored under the canonical form of `key`,
the empty string when there is none. -/
def Header.Get (h : Header) (key : String) : String :=
  match Header.lookup h (CanonicalMIMEHeaderKey key) with
  | [] => ""
  | v :: _ => v

/-- `Header.Set`: the entry of the canonical form of `key` becomes the single
value `value`. -/
def Header.Set (h : Header) (key value : String) : Header :=
  (CanonicalMIMEHeaderKey key, [value]) ::
    h.filter (fun e => e.1 != CanonicalMIMEHeaderKey key)

/-- Whether the map has an entry for the canonical form of `key`. -/
def Header.has (h : Header) (key : String) : Bool :=
  h.any (fun e => e.1 == CanonicalMIMEHeaderKey key)

/-! ## Requests, responses, the world -/

/-- A parsed URL (`*url.URL`). The development never looks inside one: it is
what the world's `url.Parse` made, and `text` names it (in the stub worlds,
by its `String()` form). -/
structure URL where
  text : String
  deriving DecidableEq, Repr

/-- An `*http.Request` as far as this code fills it in. `URL` is the parsed
URL that `http.NewRequest` stores, `Body` the text of the body, empty for a
request without a body. -/
structure Request where
  Method : String
  URL : URL
  Header : Header
  Body : String
  deriving DecidableEq, Repr

/-- An `io.Reader`: the chunks that successive `Read` calls deliver, ended by
`io.EOF` or by an error. -/
inductive Reader where
  | eof
  | fail (e : GoError)
  | chunk (data : String) (rest : Reader)
  deriving DecidableEq, Repr

/-- `io.ReadAll`: everything read until `io.EOF` or an error; the data read so
far is returned next to the error. -/
def ioReadAll : Reader → String × Option GoError
  | .eof => ("", none)
  | .fail e => ("", some e)
  | .chunk d rest => (d ++ (ioReadAll rest).1, (ioReadAll rest).2)

/-- The reader that delivers the chunks `cs` and then ends, with `io.EOF`
(`none`) or with an error. Every reader is of this form. -/
def readerOf : List String → Option GoError → Reader
  | [], none => .eof
  | [], some e => .fail e
  | c :: cs, ending => .chunk c (readerOf cs ending)

/-- The chunks put end to end. -/
def concatChunks : List String → String
  | [] => ""
  | c :: cs => c ++ concatChunks cs

/-- An `*http.Response` as far as this code reads it. -/
structure Response where
  StatusCode : Int
  Status : String
  Header : Header
  Body : Reader
  deriving DecidableEq, Repr

/-- The failures of library calls that this development detects itself; the
wording of their errors is left to the world. -/
inductive Fault where
  /-- `http.NewRequest` with a method that is not a token -/
  | badMethod (method : String)
  /-- `url.Parse` of a URL with a control character -/
  | badURL (url : String)
  /-- `json.Unmarshal` of a text that is not valid JSON -/
  | badJSON (data : String)
  /-- `json.Unmarshal` of a JSON value of the wrong kind for its target -/
  | badType (data : String)
  deriving DecidableEq, Repr

/-- What the code calls and this development does not model, for request
bodies of type `β`. -/
structure World (β : Type) where
  /-- `json.Marshal` on a request body -/
  marshal : β → Except GoError String
  /-- `parse` of `net/url` on a text without a fragment, after its check for
  control characters: the parsed URL (host, path, query resolved and
  re-encoded as the library does) or its error -/
  parseURL : String → Except GoError URL
  /-- `URL.setFragment`: the URL with the fragment set, or the error for a
  fragment that cannot be unescaped -/
  setFragment : URL → String → Except GoError URL
  /-- `removeEmptyPort` applied to the host of a URL -/
  removeEmptyPort : URL → URL
  /-- `http.DefaultClient.Do` -/
  Do : Request → Except GoError Response
  /-- the text of the error a library reports for a fault -/
  text : Fault → String

/-- The Go results of an operation, and the requests it handed to the
transport, in order. -/
structure Outcome (α : Type) where
  val : α
  err : Option GoError
  sent : List Request
  deriving DecidableEq, Repr

/-! ## `http.NewRequest` -/

/-- `validMethod`: a non-empty string of token characters. -/
def validMethod (m : String) : Bool :=
  !m.data.isEmpty && m.data.all validHeaderFieldByte

/-- `stringContainsCTLByte` of `net/url`: an ASCII control character. -/
def stringContainsCTLByte (s : String) : Bool :=
  s.data.any (fun c => c.toNat < 0x20 || c.toNat == 0x7f)

/-- The part of a URL text before its first `#` (the whole text when there
is none): `url.Parse` cuts the text there. -/
def beforeFragment (url : String) : String :=
  String.mk (url.data.takeWhile (fun c => c != '#'))

/-- The part of a URL text after its first `#`, empty when there is none. -/
def afterFragment (url : String) : String :=
  String.mk ((url.data.dropWhile (fun c => c != '#')).drop 1)

/-- Whether `url.Parse` rejects the URL text for a control character: one
that stands before the fragment. -/
def urlHasControl (url : String) : Bool :=
  stringContainsCTLByte (beforeFragment url)

/-- `url.Parse`: the text is cut at its first `#`; what stands before is
parsed, and is an error when it has a control character; what stands after,
when it is not empty, is set as the fragment. -/
def urlParse {β : Type} (w : World β) (rawURL : String) : Except GoError URL :=
  if urlHasControl rawURL then
    .error (.newRequest (w.text (.badURL (beforeFragment rawURL))))
  else
    match w.parseURL (beforeFragment rawURL) with
    | .error e => .error e
    | .ok u =>
      if afterFragment rawURL = "" then .ok u
      else w.setFragment u (afterFragment rawURL)

/-- `http.NewRequest(method, url, bytes.NewBuffer(body))`: the empty method
stands for GET, the method must be valid, the URL text must parse; the
request has the parsed URL, its empty port removed, and an empty header. -/
def NewRequest {β : Type} (w : World β) (method url body : String) :
    Except GoError Request :=
  let method := if method = "" then "GET" else method
  if !validMethod method then
    .error (.newRequest (w.text (.badMethod method)))
  else
    match urlParse w url with
    | .error e => .error e
    | .ok u => .ok { Method := method, URL := w.removeEmptyPort u, Header := [], Body := body }

/-! ## `githubservice/github_client.go` -/

/-- The type `GitHubClient`: an optional token and the base URL. -/
structure GitHubClient where
  Token : Option String
  BaseURL : String
  deriving DecidableEq, Repr

/-- `NewGitHubClient`. -/
def NewGitHubClient (token : Option String) : GitHubClient :=
  { Token := token, BaseURL := "https://api.github.com" }

/-- `GitHubClient.makeRequest`. The body is `none` for Go's `nil`. -/
def makeRequest {β : Type} (w : World β) (client : GitHubClient)
    (method endpoint : String) (body : Option β) : Outcome (Option String) :=
  let url := client.BaseURL ++ endpoint
  if body.isSome && method != "POST" && method != "PUT" then
    ⟨none, some (.errorf ("body is not allowed for method " ++ method)), []⟩
  else
    let marshalled : Except GoError String :=
      match body with
      | some b => w.marshal b
      | none => .ok ""
    match marshalled with
    | .error e => ⟨none, some e, []⟩
    | .ok requestBody =>
      match NewRequest w method url requestBody with
      | .error e => ⟨none, some e, []⟩
      | .ok req0 =>
        let h1 := match client.Token with
          | some t => Header.Set req0.Header "Authorization" ("token " ++ t)
          | none => req0.Header
        let h2 := Header.Set h1 "Content-Type" "application/json"
        let h3 := Header.Set h2 "Accept" "application/vnd.github.v3+json"
        let req := { req0 with Header := h3 }
        match w.Do req with
        | .error e => ⟨none, some e, [req]⟩
        | .ok resp =>
          if resp.StatusCode = 403 then
            let remaining := Header.Get resp.Header "X-RateLimit-Remaining"
            let reset := Header.Get resp.Header "X-RateLimit-Reset"
            ⟨none, some (.errorf ("rate limit exceeded. Remaining: " ++ remaining ++
              ", Reset at: " ++ reset)), [req]⟩
          else if resp.StatusCode ≥ 400 then
            let responseBody := (ioReadAll resp.Body).1
            ⟨none, some (.errorf ("error: " ++ resp.Status ++ ", response: " ++
              responseBody)), [req]⟩
          else
            ⟨some (ioReadAll resp.Body).1, (ioReadAll resp.Body).2, [req]⟩

/-- `GitHubClient.makeRequestNoAuth`. -/
def makeRequestNoAuth {β : Type} (w : World β) (client : GitHubClient)
    (method endpoint : String) (body : Option β) : Outcome (Option String) :=
  let url := client.BaseURL ++ endpoint
  let marshalled : Except GoError String :=
    match body with
    | some b => w.marshal b
    | none => .ok ""
  match marshalled with
  | .error e => ⟨none, some e, []⟩
  | .ok requestBody =>
    match NewRequest w method url requestBody with
    | .error e => ⟨none, some e, []⟩
    | .ok req0 =>
      let req := { req0 with Header := Header.Set req0.Header "Content-Type" "application/json" }
      match w.Do req with
      | .error e => ⟨none, some e, [req]⟩
      | .ok resp =>
        if resp.StatusCode ≥ 400 then
          ⟨none, some (.errorf ("error: " ++ resp.Status)), [req]⟩
        else
          ⟨some (ioReadAll resp.Body).1, (ioReadAll resp.Body).2, [req]⟩

/-! ## `encoding/json`: reading a text

`parseJSON` models the scanner of `encoding/json` (`checkValid`) together with
the reading of literals: it returns the JSON value a text denotes, or `none`
for a text the scanner rejects with a `*json.SyntaxError`. The members of an
object are kept in the order of the text, repeated keys included. -/

/-- A JSON value. A number keeps the text of its literal. -/
inductive JSON where
  | null
  | bool (b : Bool)
  | number (lit : String)
  | string (s : String)
  | array (items : List JSON)
  | object (members : List (String × JSON))
  deriving Repr

/-- Whether the value is the literal `null`. -/
def JSON.isNull : JSON → Bool
  | .null => true
  | _ => false

/-- Whether the value is an object. -/
def JSON.isObject : JSON → Bool
  | .object _ => true
  | _ => false

/-- The white space of JSON (`isSpace`): space, tab, carriage return and line
feed. -/
def isSpace (c : Char) : Bool :=
  [' ', '\t', '\r', '\n'].contains c

/-- Dropping leading white space. -/
def skipSpace : List Char → List Char
  | [] => []
  | c :: cs => if isSpace c then skipSpace cs else c :: cs

/-- The leading decimal digits of a text, and what follows them. -/
def takeDigits : List Char → List Char × List Char
  | [] => ([], [])
  | c :: cs =>
    if c.isDigit then ((c :: (takeDigits cs).1), (takeDigits cs).2) else ([], c :: cs)

/-- The optional fraction of a number: a dot and at least one digit. -/
def scanFraction (cs : List Char) : Option (List Char × List Char) :=
  match cs with
  | '.' :: rest =>
    match takeDigits rest with
    | ([], _) => none
    | (ds, rest1) => some ('.' :: ds, rest1)
  | _ => some ([], cs)

/-- The optional sign of an exponent, and what follows it. -/
def scanSign : List Char → List Char × List Char
  | [] => ([], [])
  | s :: rest => if s == '+' || s == '-' then ([s], rest) else ([], s :: rest)

/-- The optional exponent of a number: `e` or `E`, an optional sign and at
least one digit. -/
def scanExponent (cs : List Char) : Option (List Char × List Char) :=
  match cs with
  | [] => some ([], [])
  | e :: rest =>
    if e == 'e' || e == 'E' then
      match takeDigits (scanSign rest).2 with
      | ([], _) => none
      | (ds, rest2) => some (e :: ((scanSign rest).1 ++ ds), rest2)
    else some ([], e :: rest)

/-- After the optional minus sign: `0` or a non-zero digit followed by
digits, then the optional fraction and exponent. -/
def scanUnsigned (cs : List Char) : Option (List Char × List Char) :=
  match cs with
  | [] => none
  | d :: rest =>
    let intPart : Option (List Char × List Char) :=
      if d == '0' then some (['0'], rest)
      else if d.isDigit then some (d :: (takeDigits rest).1, (takeDigits rest).2)
      else none
    match intPart with
    | none => none
    | some (ip, r1) =>
      match scanFraction r1 with
      | none => none
      | some (fp, r2) =>
        match scanExponent r2 with
        | none => none
        | some (ep, r3) => some (ip ++ fp ++ ep, r3)

/-- A number literal at the head of the text: its text and what follows. -/
def scanNumber (cs : List Char) : Option (List Char × List Char) :=
  match cs with
  | '-' :: rest =>
    match scanUnsigned rest with
    | none => none
    | some (lit, r) => some ('-' :: lit, r)
  | _ => scanUnsigned cs

/-- The value of a hexadecimal digit, in either case. -/
def hexVal (c : Char) : Option Nat :=
  let n := c.toNat
  if 48 ≤ n ∧ n ≤ 57 then some (n - 48)
  else if 97 ≤ n ∧ n ≤ 102 then some (n - 87)
  else if 65 ≤ n ∧ n ≤ 70 then some (n - 55)
  else none

/-- The value of four hexadecimal digits, `none` when one of them is not a
digit. -/
def hex4 (a b c d : Char) : Option Nat :=
  match hexVal a, hexVal b, hexVal c, hexVal d with
  | some x, some y, some z, some t => some (((x * 16 + y) * 16 + z) * 16 + t)
  | _, _, _, _ => none

/-- `getu4`: the code unit of an escape `\uXXXX` at the head of the text. -/
def getu4 : List Char → Option Nat
  | '\\' :: 'u' :: a :: b :: c :: d :: _ => hex4 a b c d
  | _ => none

/-- The replacement character U+FFFD. -/
def replacementChar : Char := Char.ofNat 0xFFFD

/-- The one-letter escapes of a string literal and the characters they
denote. -/
def escapeTable : List (Char × Char) :=
  [('"', '"'), ('\\', '\\'), ('/', '/'), ('b', Char.ofNat 8), ('f', Char.ofNat 12),
   ('n', '\n'), ('r', '\r'), ('t', '\t')]

/-- The character of a one-letter escape, `none` for a letter that is not
one. -/
def simpleEscape (c : Char) : Option Char :=
  List.lookup c escapeTable

/-- Putting a character in front of the text of a scanned string. -/
def consResult (ch : Char) : Option (List Char × List Char) → Option (List Char × List Char)
  | none => none
  | some (s, r) => some (ch :: s, r)

/-- The inside of a string literal, after the opening quote: the text it
denotes (`unquote`) and what follows the closing quote. A control character
and an unknown escape are errors; a surrogate escape that is not followed by
its low half denotes U+FFFD. The fuel is the length of the text. -/
def scanString : Nat → List Char → Option (List Char × List Char)
  | 0, _ => none
  | _ + 1, [] => none
  | fuel + 1, c :: rest =>
    if c == '"' then some ([], rest)
    else if c == '\\' then
      match rest with
      | [] => none
      | e :: rest1 =>
        if e == 'u' then
          match hex4 (rest1.getD 0 ' ') (rest1.getD 1 ' ') (rest1.getD 2 ' ')
              (rest1.getD 3 ' ') with
          | none => none
          | some rr =>
            if 0xD800 ≤ rr ∧ rr < 0xE000 then
              match getu4 (rest1.drop 4) with
              | some rr1 =>
                if rr < 0xDC00 ∧ 0xDC00 ≤ rr1 ∧ rr1 < 0xE000 then
                  consResult (Char.ofNat (0x10000 + (rr - 0xD800) * 0x400 + (rr1 - 0xDC00)))
                    (scanString fuel (rest1.drop 10))
                else consResult replacementChar (scanString fuel (rest1.drop 4))
              | none => consResult replacementChar (scanString fuel (rest1.drop 4))
            else consResult (Char.ofNat rr) (scanString fuel (rest1.drop 4))
        else
          match simpleEscape e with
          | none => none
          | some ch => consResult ch (scanString fuel rest1)
    else if c.toNat < 0x20 then none
    else consResult c (scanString fuel rest)

/-- `maxNestingDepth` of the scanner. -/
def maxNestingDepth : Nat := 10000

mutual
/-- A value at the head of the text (white space already dropped), inside
`depth` open arrays and objects. Each call uses one unit of fuel. -/
def parseValue : Nat → Nat → List Char → Option (JSON × List Char)
  | 0, _, _ => none
  | fuel + 1, depth, cs =>
    match cs with
    | [] => none
    | c :: rest =>
      if c == 'n' then
        if rest.take 3 = ['u', 'l', 'l'] then some (.null, rest.drop 3) else none
      else if c == 't' then
        if rest.take 3 = ['r', 'u', 'e'] then some (.bool true, rest.drop 3) else none
      else if c == 'f' then
        if rest.take 4 = ['a', 'l', 's', 'e'] then some (.bool false, rest.drop 4) else none
      else if c == '"' then
        match scanString (rest.length + 1) rest with
        | none => none
        | some (s, r) => some (.string (String.mk s), r)
      else if c == '[' then
        if depth + 1 > maxNestingDepth then none
        else if (skipSpace rest).head? = some ']' then some (.array [], (skipSpace rest).tail)
        else
          match parseElements fuel (depth + 1) (skipSpace rest) with
          | none => none
          | some (xs, r) => some (.array xs, r)
      else if c == '\x7b' then
        if depth + 1 > maxNestingDepth then none
        else if (skipSpace rest).head? = some '\x7d' then
          some (.object [], (skipSpace rest).tail)
        else
          match parseMembers fuel (depth + 1) (skipSpace rest) with
          | none => none
          | some (ms, r) => some (.object ms, r)
      else if c == '-' || c.isDigit then
        match scanNumber (c :: rest) with
        | none => none
        | some (lit, r) => some (.number (String.mk lit), r)
      else none
/-- The elements of an array from the head of an element on, up to the
closing bracket. -/
def parseElements : Nat → Nat → List Char → Option (List JSON × List Char)
  | 0, _, _ => none
  | fuel + 1, depth, cs =>
    match parseValue fuel depth cs with
    | none => none
    | some (v, rest) =>
      if (skipSpace rest).head? = some ',' then
        match parseElements fuel depth (skipSpace (skipSpace rest).tail) with
        | none => none
        | some (vs, r) => some (v :: vs, r)
      else if (skipSpace rest).head? = some ']' then some ([v], (skipSpace rest).tail)
      else none
/-- The members of an object from the head of a key on, up to the closing
brace. -/
def parseMembers : Nat → Nat → List Char → Option (List (String × JSON) × List Char)
  | 0, _, _ => none
  | fuel + 1, depth, cs =>
    if cs.head? = some '"' then
      match scanString (cs.tail.length + 1) cs.tail with
      | none => none
      | some (k, rest1) =>
        if (skipSpace rest1).head? = some ':' then
          match parseValue fuel depth (skipSpace (skipSpace rest1).tail) with
          | none => none
          | some (v, rest3) =>
            if (skipSpace rest3).head? = some ',' then
              match parseMembers fuel depth (skipSpace (skipSpace rest3).tail) with
              | none => none
              | some (ms, r) => some ((String.mk k, v) :: ms, r)
            else if (skipSpace rest3).head? = some '\x7d' then
              some ([(String.mk k, v)], (skipSpace rest3).tail)
            else none
        else none
    else none
end

/-- The JSON value of a text, read with the given fuel: one value with white
space around it and nothing else. -/
def parseWithFuel (fuel : Nat) (data : String) : Option JSON :=
  match parseValue fuel 0 (skipSpace data.data) with
  | none => none
  | some (v, rest) =>
    match skipSpace rest with
    | [] => some v
    | _ => none

/-- The JSON value of a text. The fuel, twice the length of the text and two
more, is never used up: more fuel reads the same (`parseJSON_fuel`). -/
def parseJSON (data : String) : Option JSON :=
  parseWithFuel (2 * data.data.length + 2) data

/-! ## `encoding/json`: storing a value in the models

`json.Unmarshal` stores a JSON value in a Go value that exists already: a
member of an object is stored in the struct field its key names, `null`
leaves a field as it is, a value of the wrong kind is a
`*json.UnmarshalTypeError`. The decoder records the first such error, goes on
and returns it at the end; the callers drop the decoded value when there is
an error, so the functions below stop at the first error. Their argument
`msg` is the text of that error. -/

/-- `foldRune` of `encoding/json` on the runes that matter for ASCII names: a
small letter folds to its capital, and so do the two runes outside ASCII whose
fold is an ASCII letter, U+017F (long s) and U+212A (Kelvin sign). No other
rune folds to an ASCII letter; it is left as it is. -/
def foldRune (c : Char) : Char :=
  if 'a' ≤ c ∧ c ≤ 'z' then Char.ofNat (c.toNat - 32)
  else if c = Char.ofNat 0x17F then 'S'
  else if c = Char.ofNat 0x212A then 'K'
  else c

/-- `foldName`: the name with every rune folded. -/
def foldName (s : String) : String :=
  String.mk (s.data.map foldRune)

/-- Whether the key of a member names the struct field with the JSON name
`field`: an exact match or a match of the folded names. -/
def keyMatches (field key : String) : Bool :=
  key == field || foldName key == foldName field

/-- The value of a string of decimal digits, `none` for an empty string or
another character. -/
def digitsValue : List Char → Option Nat
  | [] => none
  | cs => cs.foldl (fun acc c =>
      match acc with
      | none => none
      | some n => if c.isDigit then some (n * 10 + (c.toNat - '0'.toNat)) else none) (some 0)

/-- `strconv.ParseInt(lit, 10, 64)`: an optional sign and decimal digits, with
a value that fits 64 bits; `none` for an error. -/
def parseIntLit (lit : String) : Option Int :=
  match lit.data with
  | '-' :: ds =>
    match digitsValue ds with
    | some n => if n ≤ 2 ^ 63 then some (-(n : Int)) else none
    | none => none
  | '+' :: ds =>
    match digitsValue ds with
    | some n => if n < 2 ^ 63 then some (n : Int) else none
    | none => none
  | ds =>
    match digitsValue ds with
    | some n => if n < 2 ^ 63 then some (n : Int) else none
    | none => none

/-- Storing a value in a field of type `int` (64 bits) that holds `old`. -/
def decodeInt (msg : String) (v : JSON) (old : Int) : Except GoError Int :=
  match v with
  | .null => .ok old
  | .number lit =>
    match parseIntLit lit with
    | some n => .ok n
    | none => .error (.unmarshalTypeError msg)
  | _ => .error (.unmarshalTypeError msg)

/-- Storing a value in a field of type `string` that holds `old`. -/
def decodeString (msg : String) (v : JSON) (old : String) : Except GoError String :=
  match v with
  | .null => .ok old
  | .string s => .ok s
  | _ => .error (.unmarshalTypeError msg)

/-- Storing the members of an object one after the other, in the order of the
text, with `step` storing one member. -/
def decodeMembers {α : Type} (step : α → String × JSON → Except GoError α) :
    α → List (String × JSON) → Except GoError α
  | a, [] => .ok a
  | a, m :: ms =>
    match step a m with
    | .error e => .error e
    | .ok a1 => decodeMembers step a1 ms

/-! ### `githubservice/models.go` -/

/-- The type `Repository`. -/
structure Repository where
  Name : String
  Language : String
  Stars : Int
  LastUpdated : String
  deriving DecidableEq, Repr

/-- The type `User`. -/
structure User where
  Followers : Int
  deriving DecidableEq, Repr

/-- The type `Language`, a string. -/
abbrev Language := String

/-- The zero value of `Repository`. -/
def Repository.zero : Repository := ⟨"", "", 0, ""⟩

/-- Storing one member of an object in a `User`: a key that names
`followers` sets `Followers`, any other member is skipped. -/
def decodeUserMember (msg : String) (u : User) (m : String × JSON) : Except GoError User :=
  if keyMatches "followers" m.1 then
    match decodeInt msg m.2 u.Followers with
    | .error e => .error e
    | .ok n => .ok { u with Followers := n }
  else .ok u

/-- Storing a value in a `User`. -/
def decodeUser (msg : String) (v : JSON) (u : User) : Except GoError User :=
  match v with
  | .null => .ok u
  | .object ms => decodeMembers (decodeUserMember msg) u ms
  | _ => .error (.unmarshalTypeError msg)

/-- Storing one member of an object in a `Repository`. -/
def decodeRepositoryMember (msg : String) (r : Repository) (m : String × JSON) :
    Except GoError Repository :=
  if keyMatches "name" m.1 then
    match decodeString msg m.2 r.Name with
    | .error e => .error e
    | .ok s => .ok { r with Name := s }
  else if keyMatches "language" m.1 then
    match decodeString msg m.2 r.Language with
    | .error e => .error e
    | .ok s => .ok { r with Language := s }
  else if keyMatches "stargazers_count" m.1 then
    match decodeInt msg m.2 r.Stars with
    | .error e => .error e
    | .ok n => .ok { r with Stars := n }
  else if keyMatches "updated_at" m.1 then
    match decodeString msg m.2 r.LastUpdated with
    | .error e => .error e
    | .ok s => .ok { r with LastUpdated := s }
  else .ok r

/-- Storing a value in a `Repository`. -/
def decodeRepository (msg : String) (v : JSON) (r : Repository) : Except GoError Repository :=
  match v with
  | .null => .ok r
  | .object ms => decodeMembers (decodeRepositoryMember msg) r ms
  | _ => .error (.unmarshalTypeError msg)

/-- A `[]Repository` while it is decoded: `elems` is the slice (`none` for
`nil`), `spare` the elements that an earlier, longer array left in the
backing array behind the end of the slice. -/
structure RepoSlice where
  elems : Option (List Repository)
  spare : List Repository
  deriving DecidableEq, Repr

/-- The `nil` slice. -/
def RepoSlice.nil : RepoSlice := ⟨none, []⟩

/-- Storing the elements of an array: the element at index `i` is stored in
what the backing array holds at `i` (`slots`), in the zero value behind the
end of it. -/
def decodeElements (msg : String) : List JSON → List Repository →
    Except GoError (List Repository)
  | [], _ => .ok []
  | x :: xs, slots =>
    match decodeRepository msg x (slots.headD Repository.zero) with
    | .error e => .error e
    | .ok r =>
      match decodeElements msg xs slots.tail with
      | .error e => .error e
      | .ok rs => .ok (r :: rs)

/-- Storing a value in a `[]Repository`: `null` makes it `nil`, an empty
array makes it a new empty slice, an array stores its elements over the
backing array. -/
def decodeRepoSlice (msg : String) (v : JSON) (s : RepoSlice) : Except GoError RepoSlice :=
  match v with
  | .null => .ok RepoSlice.nil
  | .array [] => .ok ⟨some [], []⟩
  | .array xs =>
    let slots := (s.elems.getD []) ++ s.spare
    match decodeElements msg xs slots with
    | .error e => .error e
    | .ok rs => .ok ⟨some rs, slots.drop xs.length⟩
  | _ => .error (.unmarshalTypeError msg)

/-- Storing one member of an object in the result of a search,
`struct { Items []Repository }` with the JSON name `items`. -/
def decodeSearchMember (msg : String) (s : RepoSlice) (m : String × JSON) :
    Except GoError RepoSlice :=
  if keyMatches "items" m.1 then decodeRepoSlice msg m.2 s else .ok s

/-- Storing a value in the result of a search. -/
def decodeSearch (msg : String) (v : JSON) (s : RepoSlice) : Except GoError RepoSlice :=
  match v with
  | .null => .ok s
  | .object ms => decodeMembers (decodeSearchMember msg) s ms
  | _ => .error (.unmarshalTypeError msg)

/-- `json.Unmarshal(data, &v)` with `store` storing the value of the text in
`v`: a text that is not valid JSON is a `*json.SyntaxError`. -/
def Unmarshal {β α : Type} (w : World β) (store : String → JSON → α → Except GoError α)
    (data : String) (v : α) : Except GoError α :=
  match parseJSON data with
  | none => .error (.jsonSyntaxError (w.text (.badJSON data)))
  | some j => store (w.text (.badType data)) j v

/-- The bytes of a `[]byte`, none for `nil`. -/
def bytesOf (data : Option String) : String :=
  match data with
  | some d => d
  | none => ""

/-! ## `githubservice/github_service.go` -/

/-- `GitHubClient.GetUser`. -/
def GetUser {β : Type} (w : World β) (client : GitHubClient) (username : String) :
    Outcome (Option String) :=
  let endpoint := "/users/" ++ username
  makeRequestNoAuth w client "GET" endpoint none

/-- `GitHubClient.GetUserFollowers`. -/
def GetUserFollowers {β : Type} (w : World β) (client : GitHubClient) (userName : String) :
    Outcome Int :=
  let r := makeRequestNoAuth w client "GET" ("/users/" ++ userName) none
  match r.err with
  | some e => ⟨0, some e, r.sent⟩
  | none =>
    match Unmarshal w decodeUser (bytesOf r.val) ⟨0⟩ with
    | .error e => ⟨0, some e, r.sent⟩
    | .ok user => ⟨user.Followers, none, r.sent⟩

/-- `GitHubClient.SearchRepositoriesByLanguage`. -/
def SearchRepositoriesByLanguage {β : Type} (w : World β) (client : GitHubClient)
    (language : Language) : Outcome (Option (List Repository)) :=
  let query := "?q=language:" ++ language
  let r := makeRequest w client "GET" ("/search/repositories" ++ query) none
  match r.err with
  | some e => ⟨none, some e, r.sent⟩
  | none =>
    match Unmarshal w decodeSearch (bytesOf r.val) RepoSlice.nil with
    | .error e => ⟨none, some e, r.sent⟩
    | .ok result => ⟨result.elems, none, r.sent⟩

/-! ## `routes/search.go` -/

/-- The type `routes.App`, with the one field `main.go` fills in; its
declaration is not among the source files. -/
structure App where
  GitHubClient : GitHubClient

/-- The part of a `*gin.Context` the handlers read: the query parameters of
the request, a `map[string][]string`. -/
structure Context where
  query : List (String × List String)

/-- `c.Query(key)`: the first value of the parameter, the empty string when
the parameter is absent. -/
def Context.Query (c : Context) (key : String) : String :=
  match List.lookup key c.query with
  | some (v :: _) => v
  | _ => ""

/-- What a handler passes to `c.JSON`: a `gin.H` of strings, the result of a
search, or an integer. -/
inductive Payload where
  | H (fields : List (String × String))
  | repositories (rs : Option (List Repository))
  | int (n : Int)
  deriving DecidableEq, Repr

/-- A call of a service operation by a handler. -/
inductive ServiceCall where
  | search (language : Language)
  | followers (userName : String)
  deriving DecidableEq, Repr

/-- What a handler did: the status and payload of its `c.JSON`, the service
operations it called and the requests handed to the transport. -/
structure Reply where
  status : Nat
  payload : Payload
  calls : List ServiceCall
  sent : List Request
  deriving DecidableEq, Repr

/-- The handler that `SearchRoute` registers for `GET /search`. -/
def searchHandler {β : Type} (w : World β) (app : App) (c : Context) : Reply :=
  let query := c.Query "q"
  if query = "" then
    ⟨400, .H [("error", "Query parameter 'q' is required")], [], []⟩
  else
    let r := SearchRepositoriesByLanguage w app.GitHubClient query
    match r.err with
    | some err => ⟨500, .H [("error", err.Error)], [.search query], r.sent⟩
    | none => ⟨200, .repositories r.val, [.search query], r.sent⟩

/-- The handler that `SearchRoute` registers for `GET /followers`. -/
def followersHandler {β : Type} (w : World β) (app : App) (c : Context) : Reply :=
  let username := c.Query "username"
  if username = "" then
    ⟨400, .H [("error", "Query parameter 'username' is required")], [], []⟩
  else
    let r := GetUserFollowers w app.GitHubClient username
    match r.err with
    | some err => ⟨500, .H [("error", err.Error)], [.followers username], r.sent⟩
    | none => ⟨200, .int r.val, [.followers username], r.sent⟩

/-! ## What a decoded field holds

The reading of an object that the specification has in mind: a field takes
the value of the member that names it. With repeated keys it is the last such
member that counts, and `null` counts for nothing. -/

/-- The value of the last member of an object whose key names `field` and
whose value is not `null`; `none` when there is no such member. -/
def lastValue (field : String) : List (String × JSON) → Option JSON
  | [] => none
  | m :: ms =>
    match lastValue field ms with
    | some v => some v
    | none => if keyMatches field m.1 && !m.2.isNull then some m.2 else none

/-- The integer of a JSON value: that of a number whose literal is an integer
of 64 bits. -/
def intValue : JSON → Option Int
  | .number lit => parseIntLit lit
  | _ => none

/-- The text of a JSON value: that of a string. -/
def stringValue : JSON → Option String
  | .string s => some s
  | _ => none

/-- A member is fine for the integer field `field` when it does not name the
field, or is `null`, or is an integer of 64 bits. -/
def intMemberFine (field : String) (m : String × JSON) : Bool :=
  !keyMatches field m.1 || m.2.isNull || (intValue m.2).isSome

/-- A member is fine for the string field `field` when it does not name the
field, or is `null`, or is a string. -/
def stringMemberFine (field : String) (m : String × JSON) : Bool :=
  !keyMatches field m.1 || m.2.isNull || (stringValue m.2).isSome

/-- What an integer field that held `old` holds after the members `ms`. -/
def intField (field : String) (ms : List (String × JSON)) (old : Int) : Int :=
  match lastValue field ms with
  | some v =>
    match intValue v with
    | some n => n
    | none => old
  | none => old

/-- What a string field that held `old` holds after the members `ms`. -/
def stringField (field : String) (ms : List (String × JSON)) (old : String) : String :=
  match lastValue field ms with
  | some v =>
    match stringValue v with
    | some s => s
    | none => old
  | none => old

/-- A member is fine for a `Repository` when it is fine for each of the four
fields. -/
def repoMemberFine (m : String × JSON) : Bool :=
  stringMemberFine "name" m && stringMemberFine "language" m &&
    intMemberFine "stargazers_count" m && stringMemberFine "updated_at" m

/-- The `Repository` that the members of an object describe. -/
def repositoryOfMembers (ms : List (String × JSON)) : Repository :=
  { Name := stringField "name" ms "", Language := stringField "language" ms "",
    Stars := intField "stargazers_count" ms 0, LastUpdated := stringField "updated_at" ms "" }

/-- The `Repository` that an element of the `items` array describes: the zero
value for `null`. -/
def repositoryOf : JSON → Repository
  | .object ms => repositoryOfMembers ms
  | _ => Repository.zero

/-- An element of the `items` array is fine when it is `null` or an object
whose members are fine. -/
def elementFine : JSON → Bool
  | .null => true
  | .object ms => ms.all repoMemberFine
  | _ => false

/-! ## Stub worlds for the concrete cases -/

/-- A world whose transport answers every request with `resp`; request bodies
are given already serialized, and a URL is named by the text it was parsed
from (the URLs of the concrete cases are in the form `url.Parse` gives back). -/
def stubWorld (resp : Response) : World String :=
  { marshal := fun b => .ok b
    parseURL := fun t => .ok ⟨t⟩
    setFragment := fun u f => .ok ⟨u.text ++ "#" ++ f⟩
    removeEmptyPort := fun u => u
    Do := fun _ => .ok resp
    text := fun f =>
      match f with
      | .badMethod _ => "net/http: invalid method"
      | .badURL _ => "net/url: invalid control character in URL"
      | .badJSON _ => "invalid character"
      | .badType _ => "json: cannot unmarshal" }

/-- The client that `main` builds, with the token `t`. -/
def stubClient : GitHubClient := NewGitHubClient (some "t")

/-- A response with the given status code, status line, header and body. -/
def stubResponse (code : Int) (status : String) (h : Header) (body : String) : Response :=
  { StatusCode := code, Status := status, Header := h, Body := .chunk body .eof }

/-! ### The two operations, cut at the call of the transport

`authRequest` and `authAnswer` are the two halves of `makeRequest` (before and
after `http.DefaultClient.Do`), `plainRequest` and `plainAnswer` those of
`makeRequestNoAuth`. They are proof devices: `makeRequest_cut` and
`makeRequestNoAuth_cut` show that each operation is its two halves. -/

/-- The request `makeRequest` builds, or the error it stops at before the
transport is called. -/
def authRequest {β : Type} (w : World β) (client : GitHubClient)
    (method endpoint : String) (body : Option β) : Except GoError Request :=
  if body.isSome && method != "POST" && method != "PUT" then
    .error (.errorf ("body is not allowed for method " ++ method))
  else
    match (match body with
      | some b => w.marshal b
      | none => .ok "") with
    | .error e => .error e
    | .ok requestBody =>
      match NewRequest w method (client.BaseURL ++ endpoint) requestBody with
      | .error e => .error e
      | .ok req0 =>
        let h1 := match client.Token with
          | some t => Header.Set req0.Header "Authorization" ("token " ++ t)
          | none => req0.Header
        let h2 := Header.Set h1 "Content-Type" "application/json"
        let h3 := Header.Set h2 "Accept" "application/vnd.github.v3+json"
        .ok { req0 with Header := h3 }

/-- What `makeRequest` makes of the transport's answer to `req`. -/
def authAnswer (req : Request) : Except GoError Response → Outcome (Option String)
  | .error e => ⟨none, some e, [req]⟩
  | .ok resp =>
    if resp.StatusCode = 403 then
      ⟨none, some (.errorf ("rate limit exceeded. Remaining: " ++
        Header.Get resp.Header "X-RateLimit-Remaining" ++
        ", Reset at: " ++ Header.Get resp.Header "X-RateLimit-Reset")), [req]⟩
    else if resp.StatusCode ≥ 400 then
      ⟨none, some (.errorf ("error: " ++ resp.Status ++ ", response: " ++
        (ioReadAll resp.Body).1)), [req]⟩
    else
      ⟨some (ioReadAll resp.Body).1, (ioReadAll resp.Body).2, [req]⟩

/-- The request `makeRequestNoAuth` builds, or the error it stops at before
the transport is called. -/
def plainRequest {β : Type} (w : World β) (client : GitHubClient)
    (method endpoint : String) (body : Option β) : Except GoError Request :=
  match (match body with
    | some b => w.marshal b
    | none => .ok "") with
  | .error e => .error e
  | .ok requestBody =>
    match NewRequest w method (client.BaseURL ++ endpoint) requestBody with
    | .error e => .error e
    | .ok req0 =>
      .ok { req0 with Header := Header.Set req0.Header "Content-Type" "application/json" }

/-- What `makeRequestNoAuth` makes of the transport's answer to `req`. -/
def plainAnswer (req : Request) : Except GoError Response → Outcome (Option String)
  | .error e => ⟨none, some e, [req]⟩
  | .ok resp =>
    if resp.StatusCode ≥ 400 then
      ⟨none, some (.errorf ("error: " ++ resp.Status)), [req]⟩
    else
      ⟨some (ioReadAll resp.Body).1, (ioReadAll resp.Body).2, [req]⟩

/-- The response of the specification's rate-limit case: status 403 with the
headers X-RateLimit-Remaining: 0 and X-RateLimit-Reset: 1700000000. -/
def rateLimitedResponse : Response :=
  stubResponse 403 "403 Forbidden"
    (Header.Set (Header.Set [] "X-RateLimit-Remaining" "0") "X-RateLimit-Reset" "1700000000")
    "\x7b\"message\":\"API rate limit exceeded\"\x7d"

/-- The request `makeRequest` builds for a GET of `/user` with the stub client. -/
def stubAuthGet : Request :=
  { Method := "GET", URL := ⟨"https://api.github.com/user"⟩,
    Header := [("Accept", ["application/vnd.github.v3+json"]),
               ("Content-Type", ["application/json"]),
               ("Authorization", ["token t"])],
    Body := "" }

/-- A response whose body delivers "par" and then fails with
"unexpected EOF". -/
def brokenResponse (code : Int) (status : String) : Response :=
  { StatusCode := code, Status := status, Header := [],
    Body := .chunk "par" (.fail (.read "unexpected EOF")) }

/-- The specification's 404 response, with body `{"message":"Not Found"}`. -/
def notFoundResponse : Response :=
  stubResponse 404 "404 Not Found" [] "\x7b\"message\":\"Not Found\"\x7d"

/-- The request `makeRequestNoAuth` builds for a GET of `/users/octocat` with
the stub client. -/
def stubPlainGet : Request :=
  { Method := "GET", URL := ⟨"https://api.github.com/users/octocat"⟩,
    Header := [("Content-Type", ["application/json"])], Body := "" }

/-- The URL text of a search, as `SearchRepositoriesByLanguage` hands it to
`http.NewRequest`: the base URL, "/search/repositories?q=language:" and the
language as it is. -/
def searchText (client : GitHubClient) (language : Language) : String :=
  client.BaseURL ++ "/search/repositories?q=language:" ++ language

/-- The request of a search with the parsed URL `u`: a GET without a body,
with the Accept and Content-Type headers and, when the client has a token, the
Authorization header. -/
def searchRequest (client : GitHubClient) (u : URL) : Request :=
  { Method := "GET"
    URL := u
    Header :=
      match client.Token with
      | some t => [("Accept", ["application/vnd.github.v3+json"]),
                   ("Content-Type", ["application/json"]),
                   ("Authorization", ["token " ++ t])]
      | none => [("Accept", ["application/vnd.github.v3+json"]),
                 ("Content-Type", ["application/json"])]
    Body := "" }

/-- The specification's search response with one item. -/
def oneItemResponse : Response :=
  stubResponse 200 "200 OK" []
    ("\x7b\"items\":[\x7b\"name\":\"a\",\"language\":\"Go\",\"stargazers_count\":5," ++
      "\"updated_at\":\"2020-01-01T00:00:00Z\"\x7d]\x7d")

/-! ## Theorems: the two request paths -/

/-- C1. For every method other than POST and PUT and every non-nil body,
`makeRequest` fails with the error "body is not allowed for method <method>",
returns no bytes and hands no request to the transport, whatever the client,
the endpoint and the world are. -/
theorem makeRequest_rejects_body {β : Type} (w : World β) (client : GitHubClient)
    (method endpoint : String) (b : β)
    (hPost : method ≠ "POST") (hPut : method ≠ "PUT") :
    makeRequest w client method endpoint (some b) =
      ⟨none, some (.errorf ("body is not allowed for method " ++ method)), []⟩ := by
  simp [makeRequest, hPost, hPut]

/-- C1, at a concrete input: a DELETE with a body, against a transport that
would answer 200. -/
theorem makeRequest_rejects_body_witness :
    "DELETE" ≠ "POST" ∧ "DELETE" ≠ "PUT" ∧
    makeRequest (stubWorld (stubResponse 200 "200 OK" [] "ok")) stubClient
        "DELETE" "/user" (some "1") =
      ⟨none, some (.errorf "body is not allowed for method DELETE"), []⟩ :=
  ⟨by decide, by decide,
    makeRequest_rejects_body _ _ "DELETE" "/user" "1" (by decide) (by decide)⟩

theorem makeRequest_cut {β : Type} (w : World β) (client : GitHubClient)
    (method endpoint : String) (body : Option β) :
    makeRequest w client method endpoint body =
      match authRequest w client method endpoint body with
      | .error e => ⟨none, some e, []⟩
      | .ok req => authAnswer req (w.Do req) := by
  unfold makeRequest authRequest
  cases body with
  | none =>
    simp only [Option.isSome_none, Bool.false_and, Bool.false_eq_true, if_false]
    cases NewRequest w method (client.BaseURL ++ endpoint) "" with
    | error e => rfl
    | ok req0 => rfl
  | some b =>
    by_cases hguard : ((some b).isSome && method != "POST" && method != "PUT") = true
    · simp only [hguard, if_true]
    · simp only [hguard, Bool.false_eq_true, if_false]
      cases w.marshal b with
      | error e => rfl
      | ok rb =>
        simp only []
        cases NewRequest w method (client.BaseURL ++ endpoint) rb with
        | error e => rfl
        | ok req0 => rfl

theorem makeRequestNoAuth_cut {β : Type} (w : World β) (client : GitHubClient)
    (method endpoint : String) (body : Option β) :
    makeRequestNoAuth w client method endpoint body =
      match plainRequest w client method endpoint body with
      | .error e => ⟨none, some e, []⟩
      | .ok req => plainAnswer req (w.Do req) := by
  unfold makeRequestNoAuth plainRequest
  cases body with
  | none =>
    simp only []
    cases NewRequest w method (client.BaseURL ++ endpoint) "" with
    | error e => rfl
    | ok req0 => rfl
  | some b =>
    simp only []
    cases w.marshal b with
    | error e => rfl
    | ok rb =>
      simp only []
      cases NewRequest w method (client.BaseURL ++ endpoint) rb with
      | error e => rfl
      | ok req0 => rfl

theorem authAnswer_sent (req : Request) (r : Except GoError Response) :
    (authAnswer req r).sent = [req] := by
  cases r with
  | error e => rfl
  | ok resp => simp only [authAnswer]; split_ifs <;> rfl

theorem plainAnswer_sent (req : Request) (r : Except GoError Response) :
    (plainAnswer req r).sent = [req] := by
  cases r with
  | error e => rfl
  | ok resp => simp only [plainAnswer]; split_ifs <;> rfl

/-- When `makeRequest` handed a request to the transport, that request is the
one it built, and its results are read off the transport's answer. -/
theorem makeRequest_of_sent {β : Type} (w : World β) (client : GitHubClient)
    (method endpoint : String) (body : Option β) (req : Request)
    (hsent : (makeRequest w client method endpoint body).sent = [req]) :
    authRequest w client method endpoint body = .ok req ∧
    makeRequest w client method endpoint body = authAnswer req (w.Do req) := by
  rw [makeRequest_cut] at hsent ⊢
  cases h : authRequest w client method endpoint body with
  | error e => rw [h] at hsent; simp at hsent
  | ok r =>
    rw [h] at hsent
    simp only [authAnswer_sent] at hsent
    have hr : r = req := List.head_eq_of_cons_eq hsent
    subst hr
    exact ⟨rfl, rfl⟩

/-- The same for `makeRequestNoAuth`. -/
theorem makeRequestNoAuth_of_sent {β : Type} (w : World β) (client : GitHubClient)
    (method endpoint : String) (body : Option β) (req : Request)
    (hsent : (makeRequestNoAuth w client method endpoint body).sent = [req]) :
    plainRequest w client method endpoint body = .ok req ∧
    makeRequestNoAuth w client method endpoint body = plainAnswer req (w.Do req) := by
  rw [makeRequestNoAuth_cut] at hsent ⊢
  cases h : plainRequest w client method endpoint body with
  | error e => rw [h] at hsent; simp at hsent
  | ok r =>
    rw [h] at hsent
    simp only [plainAnswer_sent] at hsent
    have hr : r = req := List.head_eq_of_cons_eq hsent
    subst hr
    exact ⟨rfl, rfl⟩

theorem ioReadAll_readerOf (cs : List String) (ending : Option GoError) :
    ioReadAll (readerOf cs ending) = (concatChunks cs, ending) := by
  induction cs with
  | nil => cases ending <;> rfl
  | cons c cs ih => simp [readerOf, ioReadAll, concatChunks, ih]

/-- C2. Whenever `makeRequest` handed a request to the transport and the
transport answered it with a response of status code 403, the call returns no
bytes and fails with the error whose text is "rate limit exceeded. Remaining:
<r>, Reset at: <s>", where <r> and <s> are what `Header.Get` reads for
X-RateLimit-Remaining and X-RateLimit-Reset (the empty string for an absent
header). -/
theorem makeRequest_rate_limited {β : Type} (w : World β) (client : GitHubClient)
    (method endpoint : String) (body : Option β) (req : Request) (resp : Response)
    (hsent : (makeRequest w client method endpoint body).sent = [req])
    (hdo : w.Do req = .ok resp) (h403 : resp.StatusCode = 403) :
    (makeRequest w client method endpoint body).val = none ∧
    (makeRequest w client method endpoint body).err =
      some (.errorf ("rate limit exceeded. Remaining: " ++
        Header.Get resp.Header "X-RateLimit-Remaining" ++
        ", Reset at: " ++ Header.Get resp.Header "X-RateLimit-Reset")) ∧
    (Header.lookup resp.Header (CanonicalMIMEHeaderKey "X-RateLimit-Remaining") = [] →
      Header.Get resp.Header "X-RateLimit-Remaining" = "") ∧
    (Header.lookup resp.Header (CanonicalMIMEHeaderKey "X-RateLimit-Reset") = [] →
      Header.Get resp.Header "X-RateLimit-Reset" = "") := by
  rw [(makeRequest_of_sent w client method endpoint body req hsent).2, hdo]
  refine ⟨?_, ?_, ?_, ?_⟩
  · simp [authAnswer, h403]
  · simp [authAnswer, h403]
  · intro h; simp [Header.Get, h]
  · intro h; simp [Header.Get, h]

/-- C2, at the specification's input: headers 0 and 1700000000 give an error
carrying exactly "0" and "1700000000". -/
theorem makeRequest_rate_limited_witness :
    (makeRequest (stubWorld rateLimitedResponse) stubClient "GET" "/user" none).sent =
      [stubAuthGet] ∧
    (makeRequest (stubWorld rateLimitedResponse) stubClient "GET" "/user" none).val = none ∧
    (makeRequest (stubWorld rateLimitedResponse) stubClient "GET" "/user" none).err =
      some (.errorf "rate limit exceeded. Remaining: 0, Reset at: 1700000000") :=
  have h := makeRequest_rate_limited (stubWorld rateLimitedResponse) stubClient
    "GET" "/user" none stubAuthGet rateLimitedResponse (by decide) rfl rfl
  ⟨by decide, h.1, h.2.1.trans (by decide)⟩

/-- C3, as stated, fails. A response with status 200 whose body read fails
does not make the call succeed: the read's error is returned. A response with
status 500 whose body read fails after "par" was read does not report an empty
body: the error's text ends in "response: par". -/
theorem makeRequest_read_failure_counterexample :
    (makeRequest (stubWorld (brokenResponse 200 "200 OK")) stubClient "GET" "/user"
        none).err = some (.read "unexpected EOF") ∧
    (makeRequest (stubWorld (brokenResponse 200 "200 OK")) stubClient "GET" "/user"
        none).err ≠ none ∧
    (makeRequest (stubWorld (brokenResponse 500 "500 Internal Server Error")) stubClient
        "GET" "/user" none).err =
      some (.errorf "error: 500 Internal Server Error, response: par") ∧
    (makeRequest (stubWorld (brokenResponse 500 "500 Internal Server Error")) stubClient
        "GET" "/user" none).err ≠
      some (.errorf "error: 500 Internal Server Error, response: ") := by
  decide

/-- C3, amended. Let the transport answer the request of `makeRequest` with a
response whose body delivers the chunks `cs` and then ends with `ending`
(`none` for the end of the body, an error for a failed read). If the status
code is at least 400 and not 403, the call returns no bytes and fails with the
error whose text is "error: <status line>, response: <the chunks read>",
whether the read failed or not. If the status code is below 400, the call
returns the chunks read and the error `ending`: all the bytes of the body and
no error when the read did not fail. -/
theorem makeRequest_status_and_body {β : Type} (w : World β) (client : GitHubClient)
    (method endpoint : String) (body : Option β) (req : Request) (resp : Response)
    (cs : List String) (ending : Option GoError)
    (hsent : (makeRequest w client method endpoint body).sent = [req])
    (hdo : w.Do req = .ok resp) (hbody : resp.Body = readerOf cs ending) :
    (400 ≤ resp.StatusCode → resp.StatusCode ≠ 403 →
      makeRequest w client method endpoint body =
        ⟨none, some (.errorf ("error: " ++ resp.Status ++ ", response: " ++
          concatChunks cs)), [req]⟩) ∧
    (resp.StatusCode < 400 →
      makeRequest w client method endpoint body = ⟨some (concatChunks cs), ending, [req]⟩) := by
  rw [(makeRequest_of_sent w client method endpoint body req hsent).2, hdo]
  constructor
  · intro h400 h403
    simp [authAnswer, h403, h400, hbody, ioReadAll_readerOf]
  · intro hlt
    have h403 : resp.StatusCode ≠ 403 := by omega
    have h400 : ¬ (400 ≤ resp.StatusCode) := by omega
    simp [authAnswer, h403, h400, hbody, ioReadAll_readerOf]

/-- C3 amended, at the specification's 404 response (the error's text has the
status line and the literal body) and at a 200 response with the body "ok"
(the bytes are returned unchanged, without error). -/
theorem makeRequest_status_and_body_witness :
    makeRequest (stubWorld notFoundResponse) stubClient "GET" "/user" none =
      ⟨none, some (.errorf
        "error: 404 Not Found, response: \x7b\"message\":\"Not Found\"\x7d"), [stubAuthGet]⟩ ∧
    makeRequest (stubWorld (stubResponse 200 "200 OK" [] "ok")) stubClient "GET" "/user" none =
      ⟨some "ok", none, [stubAuthGet]⟩ :=
  ⟨((makeRequest_status_and_body (stubWorld notFoundResponse) stubClient "GET" "/user" none
      stubAuthGet notFoundResponse ["\x7b\"message\":\"Not Found\"\x7d"] none
      (by decide) rfl rfl).1 (by decide) (by decide)).trans (by decide),
   ((makeRequest_status_and_body (stubWorld (stubResponse 200 "200 OK" [] "ok")) stubClient
      "GET" "/user" none stubAuthGet (stubResponse 200 "200 OK" [] "ok") ["ok"] none
      (by decide) rfl rfl).2 (by decide)).trans (by decide)⟩

/-- C4. Whenever `makeRequestNoAuth` handed a request to the transport and the
transport answered it with a response of status code at least 400 (403
included), the call returns no bytes and fails with the error whose text is
"error: <status line>"; two such calls whose responses have the same status
line fail with the same error, whatever the bodies and headers of the
responses. -/
theorem makeRequestNoAuth_status_only {β : Type} (w1 w2 : World β)
    (client1 client2 : GitHubClient) (method1 method2 endpoint1 endpoint2 : String)
    (body1 body2 : Option β) (req1 req2 : Request) (resp1 resp2 : Response)
    (hsent1 : (makeRequestNoAuth w1 client1 method1 endpoint1 body1).sent = [req1])
    (hsent2 : (makeRequestNoAuth w2 client2 method2 endpoint2 body2).sent = [req2])
    (hdo1 : w1.Do req1 = .ok resp1) (hdo2 : w2.Do req2 = .ok resp2)
    (h1 : 400 ≤ resp1.StatusCode) (h2 : 400 ≤ resp2.StatusCode) :
    makeRequestNoAuth w1 client1 method1 endpoint1 body1 =
      ⟨none, some (.errorf ("error: " ++ resp1.Status)), [req1]⟩ ∧
    (resp1.Status = resp2.Status →
      (makeRequestNoAuth w1 client1 method1 endpoint1 body1).err =
        (makeRequestNoAuth w2 client2 method2 endpoint2 body2).err ∧
      (makeRequestNoAuth w1 client1 method1 endpoint1 body1).val =
        (makeRequestNoAuth w2 client2 method2 endpoint2 body2).val) := by
  rw [(makeRequestNoAuth_of_sent w1 client1 method1 endpoint1 body1 req1 hsent1).2, hdo1,
    (makeRequestNoAuth_of_sent w2 client2 method2 endpoint2 body2 req2 hsent2).2, hdo2]
  constructor
  · simp [plainAnswer, h1]
  · intro hst
    simp [plainAnswer, h1, h2, hst]

/-- C4, at the specification's 404 response and at a 403 response with
rate-limit headers and another body: the text has the status line only, and
two responses with the status line "404 Not Found" give the same error. -/
theorem makeRequestNoAuth_status_only_witness :
    makeRequestNoAuth (stubWorld notFoundResponse) stubClient "GET" "/users/octocat" none =
      ⟨none, some (.errorf "error: 404 Not Found"), [stubPlainGet]⟩ ∧
    (makeRequestNoAuth (stubWorld notFoundResponse) stubClient "GET" "/users/octocat"
        none).err =
      (makeRequestNoAuth (stubWorld (stubResponse 404 "404 Not Found"
        [("X-Ratelimit-Remaining", ["0"])] "other")) stubClient "GET" "/users/octocat"
        none).err ∧
    (makeRequestNoAuth (stubWorld rateLimitedResponse) stubClient "GET" "/users/octocat"
        none).err = some (.errorf "error: 403 Forbidden") :=
  have h := makeRequestNoAuth_status_only (stubWorld notFoundResponse)
    (stubWorld (stubResponse 404 "404 Not Found" [("X-Ratelimit-Remaining", ["0"])] "other"))
    stubClient stubClient "GET" "GET" "/users/octocat" "/users/octocat" none none
    stubPlainGet stubPlainGet notFoundResponse
    (stubResponse 404 "404 Not Found" [("X-Ratelimit-Remaining", ["0"])] "other")
    (by decide) (by decide) rfl rfl (by decide) (by decide)
  ⟨h.1.trans (by decide), (h.2 rfl).1, by decide⟩

/-- C10, on the code. `makeRequestNoAuth` has no check of the method: a DELETE
with a body is serialized and handed to the transport with its body, and the
call succeeds, where `makeRequest` rejects the same call and sends nothing. -/
theorem makeRequestNoAuth_sends_body_on_delete :
    makeRequestNoAuth (stubWorld (stubResponse 200 "200 OK" [] "ok")) stubClient
        "DELETE" "/users/octocat" (some "\x7b\"a\":1\x7d") =
      ⟨some "ok", none,
        [{ Method := "DELETE", URL := ⟨"https://api.github.com/users/octocat"⟩,
           Header := [("Content-Type", ["application/json"])],
           Body := "\x7b\"a\":1\x7d" }]⟩ ∧
    makeRequest (stubWorld (stubResponse 200 "200 OK" [] "ok")) stubClient
        "DELETE" "/users/octocat" (some "\x7b\"a\":1\x7d") =
      ⟨none, some (.errorf "body is not allowed for method DELETE"), []⟩ := by
  decide

/-! ## Theorems: the credential -/

theorem NewRequest_ok {β : Type} (w : World β) (method url body : String) (r : Request)
    (h : NewRequest w method url body = .ok r) :
    ∃ u, urlParse w url = .ok u ∧
      r = { Method := if method = "" then "GET" else method, URL := w.removeEmptyPort u,
            Header := [], Body := body } := by
  unfold NewRequest at h
  simp only [] at h
  generalize (if method = "" then "GET" else method) = m at h ⊢
  by_cases hv : (!validMethod m) = true
  · simp [hv] at h
  · cases hp : urlParse w url with
    | error e => simp [hv, hp] at h
    | ok u =>
      simp only [hv, hp, Bool.false_eq_true, if_false] at h
      simp only [Except.ok.injEq] at h
      exact ⟨u, rfl, h.symm⟩

theorem plainRequest_header {β : Type} (w : World β) (client : GitHubClient)
    (method endpoint : String) (body : Option β) (req : Request)
    (h : plainRequest w client method endpoint body = .ok req) :
    req.Header = [("Content-Type", ["application/json"])] := by
  unfold plainRequest at h
  split at h
  · simp at h
  · split at h
    · simp at h
    · rename_i req0 hreq
      simp only [Except.ok.injEq] at h
      obtain ⟨u, _, hr⟩ := NewRequest_ok _ _ _ _ _ hreq
      rw [← h, hr]
      have hC : CanonicalMIMEHeaderKey "Content-Type" = "Content-Type" := by decide
      simp [Header.Set, hC]

theorem authRequest_header {β : Type} (w : World β) (client : GitHubClient)
    (method endpoint : String) (body : Option β) (req : Request)
    (h : authRequest w client method endpoint body = .ok req) :
    req.Header =
      match client.Token with
      | some t => [("Accept", ["application/vnd.github.v3+json"]),
                   ("Content-Type", ["application/json"]),
                   ("Authorization", ["token " ++ t])]
      | none => [("Accept", ["application/vnd.github.v3+json"]),
                 ("Content-Type", ["application/json"])] := by
  unfold authRequest at h
  split_ifs at h
  split at h
  · simp at h
  · split at h
    · simp at h
    · rename_i req0 hreq
      simp only [Except.ok.injEq] at h
      obtain ⟨u, _, hr⟩ := NewRequest_ok _ _ _ _ _ hreq
      rw [← h, hr]
      have hA : CanonicalMIMEHeaderKey "Authorization" = "Authorization" := by decide
      have hC : CanonicalMIMEHeaderKey "Content-Type" = "Content-Type" := by decide
      have hX : CanonicalMIMEHeaderKey "Accept" = "Accept" := by decide
      cases client.Token with
      | none => simp [Header.Set, hC, hX]
      | some t => simp [Header.Set, hA, hC, hX]

theorem makeRequestNoAuth_sent_mem {β : Type} (w : World β) (client : GitHubClient)
    (method endpoint : String) (body : Option β) (req : Request)
    (h : req ∈ (makeRequestNoAuth w client method endpoint body).sent) :
    plainRequest w client method endpoint body = .ok req := by
  rw [makeRequestNoAuth_cut] at h
  cases hp : plainRequest w client method endpoint body with
  | error e => rw [hp] at h; simp at h
  | ok r =>
    rw [hp] at h
    simp only [plainAnswer_sent, List.mem_singleton] at h
    rw [h]

theorem makeRequest_sent_mem {β : Type} (w : World β) (client : GitHubClient)
    (method endpoint : String) (body : Option β) (req : Request)
    (h : req ∈ (makeRequest w client method endpoint body).sent) :
    authRequest w client method endpoint body = .ok req := by
  rw [makeRequest_cut] at h
  cases hp : authRequest w client method endpoint body with
  | error e => rw [hp] at h; simp at h
  | ok r =>
    rw [hp] at h
    simp only [authAnswer_sent, List.mem_singleton] at h
    rw [h]

theorem GetUserFollowers_sent {β : Type} (w : World β) (client : GitHubClient)
    (userName : String) :
    (GetUserFollowers w client userName).sent =
      (makeRequestNoAuth w client "GET" ("/users/" ++ userName) none).sent := by
  unfold GetUserFollowers
  simp only []
  split
  · rfl
  · split <;> rfl

theorem makeRequestNoAuth_token_free {β : Type} (w : World β) (c1 c2 : GitHubClient)
    (method endpoint : String) (body : Option β) (hbase : c1.BaseURL = c2.BaseURL) :
    makeRequestNoAuth w c1 method endpoint body = makeRequestNoAuth w c2 method endpoint body := by
  unfold makeRequestNoAuth
  rw [hbase]

/-- C5. The unauthenticated path never carries the credential. Every request
that `makeRequestNoAuth` hands to the transport has the Content-Type header
only, so no Authorization header; two clients with the same base URL, whatever
their tokens, get the same outcome from it (the same requests and, the
transport being the same, the same results). `GetUser` is the call of
`makeRequestNoAuth` for GET `/users/<name>`, `GetUserFollowers` hands the
transport the requests of that same call, and neither depends on the token.
Every request that `makeRequest` hands to the transport has the header
`Authorization: token <token>` when the client has a token and no
Authorization header when it has none. -/
theorem noAuth_path_never_sends_token {β : Type} (w : World β) (c1 c2 : GitHubClient)
    (method endpoint username : String) (body : Option β)
    (hbase : c1.BaseURL = c2.BaseURL) :
    (∀ req ∈ (makeRequestNoAuth w c1 method endpoint body).sent,
      req.Header = [("Content-Type", ["application/json"])] ∧
      Header.has req.Header "Authorization" = false) ∧
    makeRequestNoAuth w c1 method endpoint body = makeRequestNoAuth w c2 method endpoint body ∧
    GetUser w c1 username = makeRequestNoAuth w c1 "GET" ("/users/" ++ username) none ∧
    (GetUserFollowers w c1 username).sent =
      (makeRequestNoAuth w c1 "GET" ("/users/" ++ username) none).sent ∧
    (∀ req ∈ (GetUser w c1 username).sent, Header.has req.Header "Authorization" = false) ∧
    (∀ req ∈ (GetUserFollowers w c1 username).sent,
      Header.has req.Header "Authorization" = false) ∧
    GetUser w c1 username = GetUser w c2 username ∧
    GetUserFollowers w c1 username = GetUserFollowers w c2 username ∧
    (∀ req ∈ (makeRequest w c1 method endpoint body).sent,
      (∀ t, c1.Token = some t →
        Header.has req.Header "Authorization" = true ∧
        Header.Get req.Header "Authorization" = "token " ++ t) ∧
      (c1.Token = none → Header.has req.Header "Authorization" = false)) := by
  have hfree : ∀ (m e : String) (b : Option β),
      ∀ req ∈ (makeRequestNoAuth w c1 m e b).sent,
        req.Header = [("Content-Type", ["application/json"])] ∧
        Header.has req.Header "Authorization" = false := by
    intro m e b req hreq
    have hh := plainRequest_header w c1 m e b req (makeRequestNoAuth_sent_mem w c1 m e b req hreq)
    refine ⟨hh, ?_⟩
    rw [hh]
    decide
  refine ⟨hfree method endpoint body, makeRequestNoAuth_token_free w c1 c2 _ _ _ hbase, rfl,
    GetUserFollowers_sent w c1 username, ?_, ?_, ?_, ?_, ?_⟩
  · intro req hreq
    exact (hfree "GET" ("/users/" ++ username) none req hreq).2
  · intro req hreq
    rw [GetUserFollowers_sent] at hreq
    exact (hfree "GET" ("/users/" ++ username) none req hreq).2
  · exact makeRequestNoAuth_token_free w c1 c2 "GET" ("/users/" ++ username) none hbase
  · unfold GetUserFollowers
    rw [makeRequestNoAuth_token_free w c1 c2 _ _ _ hbase]
  · intro req hreq
    have hh := authRequest_header w c1 method endpoint body req
      (makeRequest_sent_mem w c1 method endpoint body req hreq)
    have hA : CanonicalMIMEHeaderKey "Authorization" = "Authorization" := by decide
    constructor
    · intro t ht
      rw [ht] at hh
      rw [hh]
      simp [Header.has, Header.Get, Header.lookup, hA, List.lookup]
    · intro hnone
      rw [hnone] at hh
      rw [hh]
      decide

/-- C5, at two clients with the tokens "t" and "secret" and at the client
without a token: the request of `GetUser` is the same for both and has no
Authorization header, the request of `makeRequest` carries "token secret". -/
theorem noAuth_path_never_sends_token_witness :
    (NewGitHubClient (some "secret")).BaseURL = stubClient.BaseURL ∧
    (GetUser (stubWorld (stubResponse 200 "200 OK" [] "ok")) (NewGitHubClient (some "secret"))
        "octocat").sent = [stubPlainGet] ∧
    GetUser (stubWorld (stubResponse 200 "200 OK" [] "ok")) (NewGitHubClient (some "secret"))
        "octocat" =
      GetUser (stubWorld (stubResponse 200 "200 OK" [] "ok")) stubClient "octocat" ∧
    (makeRequest (stubWorld (stubResponse 200 "200 OK" [] "ok"))
        (NewGitHubClient (some "secret")) "GET" "/user" none).sent =
      [{ stubAuthGet with Header := [("Accept", ["application/vnd.github.v3+json"]),
          ("Content-Type", ["application/json"]), ("Authorization", ["token secret"])] }] ∧
    (makeRequest (stubWorld (stubResponse 200 "200 OK" [] "ok"))
        (NewGitHubClient none) "GET" "/user" none).sent =
      [{ stubAuthGet with Header := [("Accept", ["application/vnd.github.v3+json"]),
          ("Content-Type", ["application/json"])] }] :=
  ⟨rfl, by decide,
    (noAuth_path_never_sends_token (stubWorld (stubResponse 200 "200 OK" [] "ok"))
      (NewGitHubClient (some "secret")) stubClient "GET" "/user" "octocat" none rfl).2.2.2.2.2.2.1,
    by decide, by decide⟩

/-! ## Theorems: the route handlers -/

/-- C8. A request without the required query parameter is answered at the
route layer: for every context without a `q` parameter the `/search` handler
replies 400 with the payload `{"error": "Query parameter 'q' is required"}`,
for every context without a `username` parameter the `/followers` handler
replies 400 with `{"error": "Query parameter 'username' is required"}`, and in
both cases no service operation is called and no request is handed to the
transport. -/
theorem missing_parameter_is_rejected {β : Type} (w : World β) (app : App) (c : Context) :
    (List.lookup "q" c.query = none →
      searchHandler w app c =
        ⟨400, .H [("error", "Query parameter 'q' is required")], [], []⟩) ∧
    (List.lookup "username" c.query = none →
      followersHandler w app c =
        ⟨400, .H [("error", "Query parameter 'username' is required")], [], []⟩) := by
  constructor
  · intro h
    simp [searchHandler, Context.Query, h]
  · intro h
    simp [followersHandler, Context.Query, h]

/-- C8, at a request with no query parameter at all and at a `/search`
request that only has a `username`. -/
theorem missing_parameter_is_rejected_witness :
    searchHandler (stubWorld (stubResponse 200 "200 OK" [] "ok")) ⟨stubClient⟩
        ⟨[("username", ["octocat"])]⟩ =
      ⟨400, .H [("error", "Query parameter 'q' is required")], [], []⟩ ∧
    followersHandler (stubWorld (stubResponse 200 "200 OK" [] "ok")) ⟨stubClient⟩ ⟨[]⟩ =
      ⟨400, .H [("error", "Query parameter 'username' is required")], [], []⟩ :=
  ⟨(missing_parameter_is_rejected (stubWorld (stubResponse 200 "200 OK" [] "ok")) ⟨stubClient⟩
      ⟨[("username", ["octocat"])]⟩).1 (by decide),
   (missing_parameter_is_rejected (stubWorld (stubResponse 200 "200 OK" [] "ok")) ⟨stubClient⟩
      ⟨[]⟩).2 (by decide)⟩

/-- C9. For every request whose `username` parameter is a non-empty string,
the `/followers` handler calls `GetUserFollowers` once with that name; when the
call succeeds it replies 200 with the integer returned as payload, and when
the call fails with an error, of whatever kind, it replies 500 with the
payload `{"error": <text of the error>}`. -/
theorem followers_handler_maps_result {β : Type} (w : World β) (app : App) (c : Context)
    (username : String) (hq : c.Query "username" = username) (hne : username ≠ "") :
    ((GetUserFollowers w app.GitHubClient username).err = none →
      followersHandler w app c =
        ⟨200, .int (GetUserFollowers w app.GitHubClient username).val,
          [.followers username], (GetUserFollowers w app.GitHubClient username).sent⟩) ∧
    (∀ e, (GetUserFollowers w app.GitHubClient username).err = some e →
      followersHandler w app c =
        ⟨500, .H [("error", e.Error)],
          [.followers username], (GetUserFollowers w app.GitHubClient username).sent⟩) := by
  constructor
  · intro h
    simp [followersHandler, hq, hne, h]
  · intro e h
    simp [followersHandler, hq, hne, h]

/-- C9, at the specification's input: `username=octocat` against a transport
answering `{"followers":10}` gives 200 with the integer 10; against the 404
response it gives 500 with the text of the error. -/
theorem followers_handler_maps_result_witness :
    followersHandler (stubWorld (stubResponse 200 "200 OK" [] "\x7b\"followers\":10\x7d"))
        ⟨stubClient⟩ ⟨[("username", ["octocat"])]⟩ =
      ⟨200, .int 10, [.followers "octocat"], [stubPlainGet]⟩ ∧
    followersHandler (stubWorld notFoundResponse) ⟨stubClient⟩ ⟨[("username", ["octocat"])]⟩ =
      ⟨500, .H [("error", "error: 404 Not Found")], [.followers "octocat"], [stubPlainGet]⟩ :=
  ⟨((followers_handler_maps_result
      (stubWorld (stubResponse 200 "200 OK" [] "\x7b\"followers\":10\x7d")) ⟨stubClient⟩
      ⟨[("username", ["octocat"])]⟩ "octocat" (by decide) (by decide)).1 (by decide)).trans
      (by decide),
   ((followers_handler_maps_result (stubWorld notFoundResponse) ⟨stubClient⟩
      ⟨[("username", ["octocat"])]⟩ "octocat" (by decide) (by decide)).2
      (.errorf "error: 404 Not Found") (by decide)).trans (by decide)⟩

/-! ## Theorems: decoding -/

theorem decodeInt_eq (msg : String) (v : JSON) (old : Int) :
    decodeInt msg v old =
      if v.isNull then .ok old
      else match intValue v with
        | some n => .ok n
        | none => .error (.unmarshalTypeError msg) := by
  cases v <;> simp [decodeInt, JSON.isNull, intValue]

theorem decodeString_eq (msg : String) (v : JSON) (old : String) :
    decodeString msg v old =
      if v.isNull then .ok old
      else match stringValue v with
        | some s => .ok s
        | none => .error (.unmarshalTypeError msg) := by
  cases v <;> simp [decodeString, JSON.isNull, stringValue]

theorem lastValue_cons_skip (field : String) (m : String × JSON) (ms : List (String × JSON))
    (h : (keyMatches field m.1 && !m.2.isNull) = false) :
    lastValue field (m :: ms) = lastValue field ms := by
  simp only [lastValue, h]
  cases lastValue field ms <;> simp

theorem lastValue_int_of_fine (field : String) (ms : List (String × JSON))
    (hfine : ∀ m ∈ ms, intMemberFine field m = true) (v : JSON)
    (h : lastValue field ms = some v) : ∃ n, intValue v = some n := by
  induction ms with
  | nil => simp [lastValue] at h
  | cons m ms ih =>
    simp only [lastValue] at h
    cases hl : lastValue field ms with
    | some v1 =>
      rw [hl] at h
      simp only [Option.some.injEq] at h
      subst h
      exact ih (fun x hx => hfine x (List.mem_cons_of_mem _ hx)) hl
    | none =>
      rw [hl] at h
      simp only [] at h
      split_ifs at h with hc
      simp only [Option.some.injEq] at h
      have hm := hfine m (List.mem_cons_self _ _)
      simp only [Bool.and_eq_true, Bool.not_eq_true', ] at hc
      simp only [intMemberFine, hc.1, hc.2, Bool.not_true, Bool.false_or] at hm
      rw [← h]
      exact Option.isSome_iff_exists.mp hm

theorem lastValue_string_of_fine (field : String) (ms : List (String × JSON))
    (hfine : ∀ m ∈ ms, stringMemberFine field m = true) (v : JSON)
    (h : lastValue field ms = some v) : ∃ n, stringValue v = some n := by
  induction ms with
  | nil => simp [lastValue] at h
  | cons m ms ih =>
    simp only [lastValue] at h
    cases hl : lastValue field ms with
    | some v1 =>
      rw [hl] at h
      simp only [Option.some.injEq] at h
      subst h
      exact ih (fun x hx => hfine x (List.mem_cons_of_mem _ hx)) hl
    | none =>
      rw [hl] at h
      simp only [] at h
      split_ifs at h with hc
      simp only [Option.some.injEq] at h
      have hm := hfine m (List.mem_cons_self _ _)
      simp only [Bool.and_eq_true, Bool.not_eq_true', ] at hc
      simp only [stringMemberFine, hc.1, hc.2, Bool.not_true, Bool.false_or] at hm
      rw [← h]
      exact Option.isSome_iff_exists.mp hm

theorem intField_cons_skip (field : String) (m : String × JSON) (ms : List (String × JSON))
    (old : Int) (h : (keyMatches field m.1 && !m.2.isNull) = false) :
    intField field (m :: ms) old = intField field ms old := by
  simp only [intField, lastValue_cons_skip field m ms h]

theorem stringField_cons_skip (field : String) (m : String × JSON)
    (ms : List (String × JSON)) (old : String)
    (h : (keyMatches field m.1 && !m.2.isNull) = false) :
    stringField field (m :: ms) old = stringField field ms old := by
  simp only [stringField, lastValue_cons_skip field m ms h]

theorem intField_cons_set (field : String) (m : String × JSON) (ms : List (String × JSON))
    (old n : Int) (hk : keyMatches field m.1 = true) (hn : m.2.isNull = false)
    (hv : intValue m.2 = some n) (hfine : ∀ x ∈ ms, intMemberFine field x = true) :
    intField field (m :: ms) old = intField field ms n := by
  simp only [intField, lastValue, hk, hn, Bool.not_false, Bool.and_self, if_true]
  cases hl : lastValue field ms with
  | none => simp [hv]
  | some v =>
    obtain ⟨k, hk1⟩ := lastValue_int_of_fine field ms hfine v hl
    simp [hk1]

theorem stringField_cons_set (field : String) (m : String × JSON)
    (ms : List (String × JSON)) (old n : String) (hk : keyMatches field m.1 = true)
    (hn : m.2.isNull = false) (hv : stringValue m.2 = some n)
    (hfine : ∀ x ∈ ms, stringMemberFine field x = true) :
    stringField field (m :: ms) old = stringField field ms n := by
  simp only [stringField, lastValue, hk, hn, Bool.not_false, Bool.and_self, if_true]
  cases hl : lastValue field ms with
  | none => simp [hv]
  | some v =>
    obtain ⟨k, hk1⟩ := lastValue_string_of_fine field ms hfine v hl
    simp [hk1]

theorem decodeMembers_append {α : Type} (step : α → String × JSON → Except GoError α)
    (a : α) (xs ys : List (String × JSON)) :
    decodeMembers step a (xs ++ ys) =
      match decodeMembers step a xs with
      | .error e => .error e
      | .ok a1 => decodeMembers step a1 ys := by
  induction xs generalizing a with
  | nil => rfl
  | cons x xs ih =>
    simp only [List.cons_append, decodeMembers]
    cases step a x with
    | error e => rfl
    | ok a1 => exact ih a1

theorem decodeMembers_skip {α : Type} (step : α → String × JSON → Except GoError α)
    (a : α) (ms : List (String × JSON)) (h : ∀ m ∈ ms, step a m = .ok a) :
    decodeMembers step a ms = .ok a := by
  induction ms with
  | nil => rfl
  | cons m ms ih =>
    simp only [decodeMembers, h m (List.mem_cons_self _ _)]
    exact ih (fun x hx => h x (List.mem_cons_of_mem _ hx))

/-- Stored in a `User`, members that are all fine for `followers` leave in
`Followers` the integer of the last one that names the field and is not
`null`. -/
theorem decodeUser_members (msg : String) (ms : List (String × JSON)) (u : User)
    (hfine : ∀ m ∈ ms, intMemberFine "followers" m = true) :
    decodeMembers (decodeUserMember msg) u ms =
      .ok ⟨intField "followers" ms u.Followers⟩ := by
  induction ms generalizing u with
  | nil => rfl
  | cons m ms ih =>
    have hm := hfine m (List.mem_cons_self _ _)
    have hms : ∀ x ∈ ms, intMemberFine "followers" x = true :=
      fun x hx => hfine x (List.mem_cons_of_mem _ hx)
    simp only [decodeMembers, decodeUserMember, decodeInt_eq]
    by_cases hk : keyMatches "followers" m.1 = true
    · by_cases hn : m.2.isNull = true
      · simp only [hk, hn, if_true]
        rw [ih u hms, intField_cons_skip "followers" m ms _ (by simp [hn])]
      · simp only [Bool.not_eq_true] at hn
        simp only [intMemberFine, hk, hn, Bool.not_true, Bool.false_or] at hm
        obtain ⟨n, hv⟩ := Option.isSome_iff_exists.mp hm
        simp only [hk, hn, hv, if_true, Bool.false_eq_true, if_false]
        rw [ih _ hms, intField_cons_set "followers" m ms _ n hk hn hv hms]
    · simp only [hk, Bool.false_eq_true, if_false]
      rw [ih u hms, intField_cons_skip "followers" m ms _ (by simp [hk])]

/-- A member that is not fine for `followers` makes the decoding of a `User`
fail with a `*json.UnmarshalTypeError`. -/
theorem decodeUser_members_error (msg : String) (ms : List (String × JSON)) (u : User)
    (hbad : ∃ m ∈ ms, intMemberFine "followers" m = false) :
    decodeMembers (decodeUserMember msg) u ms = .error (.unmarshalTypeError msg) := by
  induction ms generalizing u with
  | nil => simp at hbad
  | cons m ms ih =>
    simp only [decodeMembers, decodeUserMember, decodeInt_eq]
    by_cases hm : intMemberFine "followers" m = true
    · have hrest : ∃ x ∈ ms, intMemberFine "followers" x = false := by
        obtain ⟨x, hx, hxb⟩ := hbad
        rcases List.mem_cons.mp hx with rfl | hx1
        · rw [hm] at hxb; exact absurd hxb (by simp)
        · exact ⟨x, hx1, hxb⟩
      by_cases hk : keyMatches "followers" m.1 = true
      · by_cases hn : m.2.isNull = true
        · simp only [hk, hn, if_true]
          exact ih u hrest
        · simp only [Bool.not_eq_true] at hn
          simp only [intMemberFine, hk, hn, Bool.not_true, Bool.false_or] at hm
          obtain ⟨n, hv⟩ := Option.isSome_iff_exists.mp hm
          simp only [hk, hn, hv, if_true, Bool.false_eq_true, if_false]
          exact ih _ hrest
      · simp only [hk, Bool.false_eq_true, if_false]
        exact ih u hrest
    · simp only [Bool.not_eq_true] at hm
      simp only [intMemberFine, Bool.or_eq_false_iff, Bool.not_eq_false'] at hm
      obtain ⟨⟨hk, hn⟩, hv⟩ := hm
      have hv1 : intValue m.2 = none := by
        cases h : intValue m.2 with
        | none => rfl
        | some n => rw [h] at hv; simp at hv
      simp only [hk, hn, hv1, if_true, Bool.false_eq_true, if_false]

theorem lastValue_no_match (field : String) (ms : List (String × JSON))
    (h : ∀ m ∈ ms, keyMatches field m.1 = false) : lastValue field ms = none := by
  induction ms with
  | nil => rfl
  | cons m ms ih =>
    rw [lastValue_cons_skip field m ms (by simp [h m (List.mem_cons_self _ _)])]
    exact ih (fun x hx => h x (List.mem_cons_of_mem _ hx))

theorem lastValue_last (field : String) (pre post : List (String × JSON)) (k : String)
    (v : JSON) (hk : keyMatches field k = true) (hv : v.isNull = false)
    (hpost : ∀ m ∈ post, keyMatches field m.1 = false) :
    lastValue field (pre ++ (k, v) :: post) = some v := by
  induction pre with
  | nil =>
    simp [lastValue, lastValue_no_match field post hpost, hk, hv]
  | cons p pre ih =>
    show lastValue field (p :: (pre ++ (k, v) :: post)) = some v
    simp only [lastValue, ih]

theorem makeRequestNoAuth_success {β : Type} (w : World β) (client : GitHubClient)
    (method endpoint : String) (body : Option β) (req : Request) (resp : Response)
    (cs : List String)
    (hsent : (makeRequestNoAuth w client method endpoint body).sent = [req])
    (hdo : w.Do req = .ok resp) (hlt : resp.StatusCode < 400)
    (hbody : resp.Body = readerOf cs none) :
    makeRequestNoAuth w client method endpoint body = ⟨some (concatChunks cs), none, [req]⟩ := by
  rw [(makeRequestNoAuth_of_sent w client method endpoint body req hsent).2, hdo]
  have h400 : ¬ (400 ≤ resp.StatusCode) := by omega
  simp [plainAnswer, h400, hbody, ioReadAll_readerOf]

theorem makeRequest_success {β : Type} (w : World β) (client : GitHubClient)
    (method endpoint : String) (body : Option β) (req : Request) (resp : Response)
    (cs : List String)
    (hsent : (makeRequest w client method endpoint body).sent = [req])
    (hdo : w.Do req = .ok resp) (hlt : resp.StatusCode < 400)
    (hbody : resp.Body = readerOf cs none) :
    makeRequest w client method endpoint body = ⟨some (concatChunks cs), none, [req]⟩ := by
  rw [(makeRequest_of_sent w client method endpoint body req hsent).2, hdo]
  have h403 : resp.StatusCode ≠ 403 := by omega
  have h400 : ¬ (400 ≤ resp.StatusCode) := by omega
  simp [authAnswer, h403, h400, hbody, ioReadAll_readerOf]

/-- C6, as stated, fails: the body `{"Followers": 5}` is a JSON object with no
"followers" field, and `GetUserFollowers` returns 5 for it, not 0; the body
`{"followers": 1, "FOLLOWERS": 2}` has the field "followers" with the integer
1, and 2 is returned; the body `null` is not an object, and 0 is returned
without error. -/
theorem GetUserFollowers_key_case_counterexample :
    GetUserFollowers (stubWorld (stubResponse 200 "200 OK" [] "\x7b\"Followers\": 5\x7d"))
        stubClient "octocat" = ⟨5, none, [stubPlainGet]⟩ ∧
    GetUserFollowers (stubWorld (stubResponse 200 "200 OK" []
        "\x7b\"followers\": 1, \"FOLLOWERS\": 2\x7d")) stubClient "octocat" =
      ⟨2, none, [stubPlainGet]⟩ ∧
    GetUserFollowers (stubWorld (stubResponse 200 "200 OK" [] "null")) stubClient "octocat" =
      ⟨0, none, [stubPlainGet]⟩ := by
  decide

/-- C6, amended. An error of the underlying request is returned unchanged
with the count 0. When the request is answered with a status below 400 and a
body that is read whole, `GetUserFollowers`
* fails with a `*json.SyntaxError` and the count 0 when the body is not valid
  JSON;
* for a body that is a JSON object: when every member whose key is
  "followers", compared as `encoding/json` compares keys (an exact match, or a
  match of the case-folded names), is `null` or an integer that fits 64 bits,
  it returns without error the integer of the last such member that is not
  `null`, 0 when there is none; so it returns 0 when no key names the field,
  and `n` when the last member that names the field is the integer `n`; when
  a member that names the field is of another kind, it fails with a
  `*json.UnmarshalTypeError` and the count 0;
* returns 0 without error for the body `null`;
* fails with a `*json.UnmarshalTypeError` and the count 0 for a body that is
  another JSON value (an array, a string, a number, a boolean). -/
theorem GetUserFollowers_decodes {β : Type} (w : World β) (client : GitHubClient)
    (userName : String) :
    (∀ e, (makeRequestNoAuth w client "GET" ("/users/" ++ userName) none).err = some e →
      GetUserFollowers w client userName =
        ⟨0, some e, (makeRequestNoAuth w client "GET" ("/users/" ++ userName) none).sent⟩) ∧
    (∀ (req : Request) (resp : Response) (cs : List String),
      (makeRequestNoAuth w client "GET" ("/users/" ++ userName) none).sent = [req] →
      w.Do req = .ok resp → resp.StatusCode < 400 → resp.Body = readerOf cs none →
      (parseJSON (concatChunks cs) = none →
        GetUserFollowers w client userName =
          ⟨0, some (.jsonSyntaxError (w.text (.badJSON (concatChunks cs)))), [req]⟩) ∧
      (∀ ms, parseJSON (concatChunks cs) = some (.object ms) →
        ((∀ m ∈ ms, intMemberFine "followers" m = true) →
          GetUserFollowers w client userName = ⟨intField "followers" ms 0, none, [req]⟩) ∧
        ((∀ m ∈ ms, keyMatches "followers" m.1 = false) →
          GetUserFollowers w client userName = ⟨0, none, [req]⟩) ∧
        (∀ pre post k lit n, ms = pre ++ (k, .number lit) :: post →
          keyMatches "followers" k = true → parseIntLit lit = some n →
          (∀ m ∈ pre, intMemberFine "followers" m = true) →
          (∀ m ∈ post, keyMatches "followers" m.1 = false) →
          GetUserFollowers w client userName = ⟨n, none, [req]⟩) ∧
        ((∃ m ∈ ms, intMemberFine "followers" m = false) →
          GetUserFollowers w client userName =
            ⟨0, some (.unmarshalTypeError (w.text (.badType (concatChunks cs)))), [req]⟩)) ∧
      (parseJSON (concatChunks cs) = some .null →
        GetUserFollowers w client userName = ⟨0, none, [req]⟩) ∧
      (∀ v, parseJSON (concatChunks cs) = some v → v.isNull = false → v.isObject = false →
        GetUserFollowers w client userName =
          ⟨0, some (.unmarshalTypeError (w.text (.badType (concatChunks cs)))), [req]⟩)) := by
  constructor
  · intro e he
    simp [GetUserFollowers, he]
  · intro req resp cs hsent hdo hlt hbody
    have hreq := makeRequestNoAuth_success w client "GET" ("/users/" ++ userName) none
      req resp cs hsent hdo hlt hbody
    have hfineOK : ∀ ms, parseJSON (concatChunks cs) = some (.object ms) →
        (∀ m ∈ ms, intMemberFine "followers" m = true) →
        GetUserFollowers w client userName = ⟨intField "followers" ms 0, none, [req]⟩ := by
      intro ms hp hfine
      simp [GetUserFollowers, hreq, bytesOf, Unmarshal, hp, decodeUser,
        decodeUser_members _ ms ⟨0⟩ hfine]
    refine ⟨?_, ?_, ?_, ?_⟩
    · intro hp
      simp [GetUserFollowers, hreq, bytesOf, Unmarshal, hp]
    · intro ms hp
      refine ⟨hfineOK ms hp, ?_, ?_, ?_⟩
      · intro hno
        rw [hfineOK ms hp (fun m hm => by simp [intMemberFine, hno m hm])]
        simp [intField, lastValue_no_match "followers" ms hno]
      · intro pre post k lit n hms hk hlit hpre hpost
        have hfine : ∀ m ∈ ms, intMemberFine "followers" m = true := by
          intro m hm
          rw [hms] at hm
          rcases List.mem_append.mp hm with h1 | h1
          · exact hpre m h1
          · rcases List.mem_cons.mp h1 with rfl | h2
            · simp [intMemberFine, intValue, hlit]
            · simp [intMemberFine, hpost m h2]
        rw [hfineOK ms hp hfine, hms]
        simp [intField, lastValue_last "followers" pre post k (.number lit) hk rfl hpost,
          intValue, hlit]
      · intro hbad
        simp [GetUserFollowers, hreq, bytesOf, Unmarshal, hp, decodeUser,
          decodeUser_members_error _ ms ⟨0⟩ hbad]
    · intro hp
      simp [GetUserFollowers, hreq, bytesOf, Unmarshal, hp, decodeUser]
    · intro v hp hnull hobj
      cases v <;> simp [JSON.isNull, JSON.isObject] at hnull hobj <;>
        simp [GetUserFollowers, hreq, bytesOf, Unmarshal, hp, decodeUser]

/-- C6 amended, at the specification's inputs: `{"followers": 42}` gives 42,
`{}` gives 0 without error, and the error of a 404 answer is returned
unchanged with the count 0; and at two bodies that are refused: the text
`followers` is not valid JSON, and in `{"followers": "many"}` the member is a
string. -/
theorem GetUserFollowers_decodes_witness :
    GetUserFollowers (stubWorld (stubResponse 200 "200 OK" [] "\x7b\"followers\": 42\x7d"))
        stubClient "octocat" = ⟨42, none, [stubPlainGet]⟩ ∧
    GetUserFollowers (stubWorld (stubResponse 200 "200 OK" [] "\x7b\x7d"))
        stubClient "octocat" = ⟨0, none, [stubPlainGet]⟩ ∧
    GetUserFollowers (stubWorld notFoundResponse) stubClient "octocat" =
      ⟨0, some (.errorf "error: 404 Not Found"), [stubPlainGet]⟩ ∧
    GetUserFollowers (stubWorld (stubResponse 200 "200 OK" [] "followers"))
        stubClient "octocat" =
      ⟨0, some (.jsonSyntaxError "invalid character"), [stubPlainGet]⟩ ∧
    GetUserFollowers
        (stubWorld (stubResponse 200 "200 OK" [] "\x7b\"followers\": \"many\"\x7d"))
        stubClient "octocat" =
      ⟨0, some (.unmarshalTypeError "json: cannot unmarshal"), [stubPlainGet]⟩ :=
  ⟨(((GetUserFollowers_decodes
        (stubWorld (stubResponse 200 "200 OK" [] "\x7b\"followers\": 42\x7d"))
        stubClient "octocat").2 stubPlainGet
        (stubResponse 200 "200 OK" [] "\x7b\"followers\": 42\x7d")
        ["\x7b\"followers\": 42\x7d"] (by decide) rfl (by decide) rfl).2.1
        [("followers", .number "42")] rfl).2.2.1 [] [] "followers" "42" 42 rfl
        (by decide) (by decide) (by simp) (by simp),
   (((GetUserFollowers_decodes (stubWorld (stubResponse 200 "200 OK" [] "\x7b\x7d"))
        stubClient "octocat").2 stubPlainGet (stubResponse 200 "200 OK" [] "\x7b\x7d")
        ["\x7b\x7d"] (by decide) rfl (by decide) rfl).2.1 [] rfl).2.1 (by simp),
   ((GetUserFollowers_decodes (stubWorld notFoundResponse) stubClient "octocat").1
        (.errorf "error: 404 Not Found") (by decide)).trans (by decide),
   ((GetUserFollowers_decodes (stubWorld (stubResponse 200 "200 OK" [] "followers"))
        stubClient "octocat").2 stubPlainGet (stubResponse 200 "200 OK" [] "followers")
        ["followers"] (by decide) rfl (by decide) rfl).1 rfl,
   (((GetUserFollowers_decodes
        (stubWorld (stubResponse 200 "200 OK" [] "\x7b\"followers\": \"many\"\x7d"))
        stubClient "octocat").2 stubPlainGet
        (stubResponse 200 "200 OK" [] "\x7b\"followers\": \"many\"\x7d")
        ["\x7b\"followers\": \"many\"\x7d"] (by decide) rfl (by decide) rfl).2.1
        [("followers", .string "many")] rfl).2.2.2
        ⟨("followers", .string "many"), by simp, by decide⟩⟩

theorem keyMatches_exclusive (f1 f2 key : String) (hne : foldName f1 ≠ foldName f2)
    (h : keyMatches f1 key = true) : keyMatches f2 key = false := by
  have hfold : ∀ f, keyMatches f key = true → foldName key = foldName f := by
    intro f hf
    simp only [keyMatches, Bool.or_eq_true, beq_iff_eq] at hf
    rcases hf with hf | hf
    · rw [hf]
    · exact hf
  cases h2 : keyMatches f2 key with
  | false => rfl
  | true => exact absurd ((hfold f1 h).symm.trans (hfold f2 h2)) hne

/-- Stored in a `Repository`, members that are all fine leave in each field
the value of the last member that names the field and is not `null`. -/
theorem decodeRepository_members (msg : String) (ms : List (String × JSON)) (r : Repository)
    (hfine : ∀ m ∈ ms, repoMemberFine m = true) :
    decodeMembers (decodeRepositoryMember msg) r ms =
      .ok { Name := stringField "name" ms r.Name,
            Language := stringField "language" ms r.Language,
            Stars := intField "stargazers_count" ms r.Stars,
            LastUpdated := stringField "updated_at" ms r.LastUpdated } := by
  induction ms generalizing r with
  | nil => rfl
  | cons m ms ih =>
    have hm := hfine m (List.mem_cons_self _ _)
    have hms : ∀ x ∈ ms, repoMemberFine x = true :=
      fun x hx => hfine x (List.mem_cons_of_mem _ hx)
    simp only [repoMemberFine, Bool.and_eq_true] at hm
    have hmsN : ∀ x ∈ ms, stringMemberFine "name" x = true := by
      intro x hx
      have := hms x hx
      simp only [repoMemberFine, Bool.and_eq_true] at this
      exact this.1.1.1
    have hmsL : ∀ x ∈ ms, stringMemberFine "language" x = true := by
      intro x hx
      have := hms x hx
      simp only [repoMemberFine, Bool.and_eq_true] at this
      exact this.1.1.2
    have hmsS : ∀ x ∈ ms, intMemberFine "stargazers_count" x = true := by
      intro x hx
      have := hms x hx
      simp only [repoMemberFine, Bool.and_eq_true] at this
      exact this.1.2
    have hmsU : ∀ x ∈ ms, stringMemberFine "updated_at" x = true := by
      intro x hx
      have := hms x hx
      simp only [repoMemberFine, Bool.and_eq_true] at this
      exact this.2
    simp only [decodeMembers, decodeRepositoryMember, decodeString_eq, decodeInt_eq]
    by_cases h1 : keyMatches "name" m.1 = true
    · have h2 : keyMatches "language" m.1 = false :=
        keyMatches_exclusive "name" "language" m.1 (by decide) h1
      have h3 : keyMatches "stargazers_count" m.1 = false :=
        keyMatches_exclusive "name" "stargazers_count" m.1 (by decide) h1
      have h4 : keyMatches "updated_at" m.1 = false :=
        keyMatches_exclusive "name" "updated_at" m.1 (by decide) h1
      by_cases hn : m.2.isNull = true
      · simp only [h1, h2, h3, h4, hn, if_true, Bool.false_eq_true, if_false]
        rw [ih r hms,
          stringField_cons_skip "name" m ms _ (by simp [h1, hn]),
          stringField_cons_skip "language" m ms _ (by simp [h2, hn]),
          intField_cons_skip "stargazers_count" m ms _ (by simp [h3, hn]),
          stringField_cons_skip "updated_at" m ms _ (by simp [h4, hn])]
      · simp only [Bool.not_eq_true] at hn
        have hf := hm.1.1.1
        simp only [stringMemberFine, h1, hn, Bool.not_true, Bool.false_or] at hf
        obtain ⟨n, hv⟩ := Option.isSome_iff_exists.mp hf
        simp only [h1, h2, h3, h4, hn, hv, if_true, Bool.false_eq_true, if_false]
        rw [ih _ hms,
          stringField_cons_set "name" m ms _ n h1 hn hv hmsN,
          stringField_cons_skip "language" m ms _ (by simp [h2]),
          intField_cons_skip "stargazers_count" m ms _ (by simp [h3]),
          stringField_cons_skip "updated_at" m ms _ (by simp [h4])]
    · simp only [Bool.not_eq_true] at h1
      by_cases h2 : keyMatches "language" m.1 = true
      · have h1 : keyMatches "name" m.1 = false :=
          keyMatches_exclusive "language" "name" m.1 (by decide) h2
        have h3 : keyMatches "stargazers_count" m.1 = false :=
          keyMatches_exclusive "language" "stargazers_count" m.1 (by decide) h2
        have h4 : keyMatches "updated_at" m.1 = false :=
          keyMatches_exclusive "language" "updated_at" m.1 (by decide) h2
        by_cases hn : m.2.isNull = true
        · simp only [h1, h2, h3, h4, hn, if_true, Bool.false_eq_true, if_false]
          rw [ih r hms,
            stringField_cons_skip "name" m ms _ (by simp [h1, hn]),
            stringField_cons_skip "language" m ms _ (by simp [h2, hn]),
            intField_cons_skip "stargazers_count" m ms _ (by simp [h3, hn]),
            stringField_cons_skip "updated_at" m ms _ (by simp [h4, hn])]
        · simp only [Bool.not_eq_true] at hn
          have hf := hm.1.1.2
          simp only [stringMemberFine, h2, hn, Bool.not_true, Bool.false_or] at hf
          obtain ⟨n, hv⟩ := Option.isSome_iff_exists.mp hf
          simp only [h1, h2, h3, h4, hn, hv, if_true, Bool.false_eq_true, if_false]
          rw [ih _ hms,
            stringField_cons_skip "name" m ms _ (by simp [h1]),
            stringField_cons_set "language" m ms _ n h2 hn hv hmsL,
            intField_cons_skip "stargazers_count" m ms _ (by simp [h3]),
            stringField_cons_skip "updated_at" m ms _ (by simp [h4])]
      · simp only [Bool.not_eq_true] at h2
        by_cases h3 : keyMatches "stargazers_count" m.1 = true
        · have h1 : keyMatches "name" m.1 = false :=
            keyMatches_exclusive "stargazers_count" "name" m.1 (by decide) h3
          have h2 : keyMatches "language" m.1 = false :=
            keyMatches_exclusive "stargazers_count" "language" m.1 (by decide) h3
          have h4 : keyMatches "updated_at" m.1 = false :=
            keyMatches_exclusive "stargazers_count" "updated_at" m.1 (by decide) h3
          by_cases hn : m.2.isNull = true
          · simp only [h1, h2, h3, h4, hn, if_true, Bool.false_eq_true, if_false]
            rw [ih r hms,
              stringField_cons_skip "name" m ms _ (by simp [h1, hn]),
              stringField_cons_skip "language" m ms _ (by simp [h2, hn]),
              intField_cons_skip "stargazers_count" m ms _ (by simp [h3, hn]),
              stringField_cons_skip "updated_at" m ms _ (by simp [h4, hn])]
          · simp only [Bool.not_eq_true] at hn
            have hf := hm.1.2
            simp only [intMemberFine, h3, hn, Bool.not_true, Bool.false_or] at hf
            obtain ⟨n, hv⟩ := Option.isSome_iff_exists.mp hf
            simp only [h1, h2, h3, h4, hn, hv, if_true, Bool.false_eq_true, if_false]
            rw [ih _ hms,
              stringField_cons_skip "name" m ms _ (by simp [h1]),
              stringField_cons_skip "language" m ms _ (by simp [h2]),
              intField_cons_set "stargazers_count" m ms _ n h3 hn hv hmsS,
              stringField_cons_skip "updated_at" m ms _ (by simp [h4])]
        · simp only [Bool.not_eq_true] at h3
          by_cases h4 : keyMatches "updated_at" m.1 = true
          · have h1 : keyMatches "name" m.1 = false :=
              keyMatches_exclusive "updated_at" "name" m.1 (by decide) h4
            have h2 : keyMatches "language" m.1 = false :=
              keyMatches_exclusive "updated_at" "language" m.1 (by decide) h4
            have h3 : keyMatches "stargazers_count" m.1 = false :=
              keyMatches_exclusive "updated_at" "stargazers_count" m.1 (by decide) h4
            by_cases hn : m.2.isNull = true
            · simp only [h1, h2, h3, h4, hn, if_true, Bool.false_eq_true, if_false]
              rw [ih r hms,
                stringField_cons_skip "name" m ms _ (by simp [h1, hn]),
                stringField_cons_skip "language" m ms _ (by simp [h2, hn]),
                intField_cons_skip "stargazers_count" m ms _ (by simp [h3, hn]),
                stringField_cons_skip "updated_at" m ms _ (by simp [h4, hn])]
            · simp only [Bool.not_eq_true] at hn
              have hf := hm.2
              simp only [stringMemberFine, h4, hn, Bool.not_true, Bool.false_or] at hf
              obtain ⟨n, hv⟩ := Option.isSome_iff_exists.mp hf
              simp only [h1, h2, h3, h4, hn, hv, if_true, Bool.false_eq_true, if_false]
              rw [ih _ hms,
                stringField_cons_skip "name" m ms _ (by simp [h1]),
                stringField_cons_skip "language" m ms _ (by simp [h2]),
                intField_cons_skip "stargazers_count" m ms _ (by simp [h3]),
                stringField_cons_set "updated_at" m ms _ n h4 hn hv hmsU]
          · simp only [Bool.not_eq_true] at h4
            simp only [h1, h2, h3, h4, Bool.false_eq_true, if_false]
            rw [ih r hms,
              stringField_cons_skip "name" m ms _ (by simp [h1]),
              stringField_cons_skip "language" m ms _ (by simp [h2]),
              intField_cons_skip "stargazers_count" m ms _ (by simp [h3]),
              stringField_cons_skip "updated_at" m ms _ (by simp [h4])]

/-- Stored in a new slice, elements that are all fine give the repositories
they describe, in the order of the array. -/
theorem decodeElements_fresh (msg : String) (xs : List JSON)
    (hfine : ∀ x ∈ xs, elementFine x = true) :
    decodeElements msg xs [] = .ok (xs.map repositoryOf) := by
  induction xs with
  | nil => rfl
  | cons x xs ih =>
    have hx := hfine x (List.mem_cons_self _ _)
    have hxs : ∀ y ∈ xs, elementFine y = true :=
      fun y hy => hfine y (List.mem_cons_of_mem _ hy)
    have hhead : decodeRepository msg x Repository.zero = .ok (repositoryOf x) := by
      cases x with
      | null => rfl
      | object ms =>
        simp only [elementFine, List.all_eq_true] at hx
        simp only [decodeRepository, decodeRepository_members msg ms Repository.zero hx]
        rfl
      | bool b => simp [elementFine] at hx
      | number lit => simp [elementFine] at hx
      | string t => simp [elementFine] at hx
      | array ys => simp [elementFine] at hx
    simp only [decodeElements, List.headD_nil, List.tail_nil, hhead, ih hxs, List.map_cons]

theorem decodeRepoSlice_fresh (msg : String) (xs : List JSON)
    (hfine : ∀ x ∈ xs, elementFine x = true) :
    decodeRepoSlice msg (.array xs) RepoSlice.nil = .ok ⟨some (xs.map repositoryOf), []⟩ := by
  cases xs with
  | nil => rfl
  | cons x xs =>
    simp only [decodeRepoSlice, RepoSlice.nil, Option.getD_none, List.append_nil,
      decodeElements_fresh msg (x :: xs) hfine, List.drop_nil]

/-- Stored in the result of a search, an object with one member that names
`items`, an array of fine elements, gives the repositories of the array. -/
theorem decodeSearch_members (msg : String) (pre post : List (String × JSON)) (k : String)
    (xs : List JSON) (hk : keyMatches "items" k = true)
    (hpre : ∀ m ∈ pre, keyMatches "items" m.1 = false)
    (hpost : ∀ m ∈ post, keyMatches "items" m.1 = false)
    (hfine : ∀ x ∈ xs, elementFine x = true) :
    decodeMembers (decodeSearchMember msg) RepoSlice.nil (pre ++ (k, .array xs) :: post) =
      .ok ⟨some (xs.map repositoryOf), []⟩ := by
  rw [decodeMembers_append,
    decodeMembers_skip _ _ pre (fun m hm => by simp [decodeSearchMember, hpre m hm])]
  simp only [decodeMembers, decodeSearchMember, hk, if_true, decodeRepoSlice_fresh msg xs hfine]
  exact decodeMembers_skip _ _ post (fun m hm => by simp [decodeSearchMember, hpost m hm])

theorem SearchRepositoriesByLanguage_sent {β : Type} (w : World β) (client : GitHubClient)
    (language : Language) :
    (SearchRepositoriesByLanguage w client language).sent =
      (makeRequest w client "GET" ("/search/repositories" ++ ("?q=language:" ++ language))
        none).sent := by
  unfold SearchRepositoriesByLanguage
  simp only []
  split
  · rfl
  · split <;> rfl

theorem search_url (client : GitHubClient) (language : Language) :
    client.BaseURL ++ ("/search/repositories" ++ ("?q=language:" ++ language)) =
      searchText client language := by
  unfold searchText
  rw [← String.append_assoc "/search/repositories", String.append_assoc client.BaseURL]
  rfl

theorem authRequest_search {β : Type} (w : World β) (client : GitHubClient)
    (language : Language) :
    authRequest w client "GET" ("/search/repositories" ++ ("?q=language:" ++ language)) none =
      match urlParse w (searchText client language) with
      | .error e => .error e
      | .ok u => .ok (searchRequest client (w.removeEmptyPort u)) := by
  have hA : CanonicalMIMEHeaderKey "Authorization" = "Authorization" := by decide
  have hC : CanonicalMIMEHeaderKey "Content-Type" = "Content-Type" := by decide
  have hX : CanonicalMIMEHeaderKey "Accept" = "Accept" := by decide
  have hv : validMethod "GET" = true := by decide
  have hg : ("GET" = "") = False := by decide
  unfold authRequest NewRequest
  simp only [search_url, Option.isSome_none, Bool.false_and, Bool.false_eq_true, if_false,
    hg, hv, Bool.not_true]
  cases urlParse w (searchText client language) with
  | error e => rfl
  | ok u =>
    cases hT : client.Token with
    | none => simp [searchRequest, Header.Set, hC, hX, hT]
    | some t => simp [searchRequest, Header.Set, hA, hC, hX, hT]

theorem takeWhile_no_hash (cs : List Char) (h : '#' ∉ cs) :
    cs.takeWhile (fun c => c != '#') = cs ∧ cs.dropWhile (fun c => c != '#') = [] := by
  induction cs with
  | nil => exact ⟨rfl, rfl⟩
  | cons c cs ih =>
    have hc : c ≠ '#' := fun e => h (by simp [e])
    have hcs : '#' ∉ cs := fun e => h (List.mem_cons_of_mem _ e)
    have hb : (c != '#') = true := by simp [hc]
    simp only [List.takeWhile, List.dropWhile, hb, (ih hcs).1, (ih hcs).2, and_self]

/-- A URL text without `#` is parsed whole, and has no fragment. -/
theorem urlParse_no_hash {β : Type} (w : World β) (t : String) (h : '#' ∉ t.data) :
    urlParse w t =
      if stringContainsCTLByte t then .error (.newRequest (w.text (.badURL t)))
      else w.parseURL t := by
  have hb : beforeFragment t = t := by
    simp only [beforeFragment, (takeWhile_no_hash t.data h).1]
  have ha : afterFragment t = "" := by
    simp only [afterFragment, (takeWhile_no_hash t.data h).2]
    rfl
  simp only [urlParse, urlHasControl, hb, ha, if_true]
  split_ifs
  · rfl
  · cases w.parseURL t <;> rfl

/-- C7, as stated, fails. For the language "\n" (a line feed: the query
parameter `q=%0A`) `http.NewRequest` rejects the URL, so no request at all is
handed to the transport and the call fails, whatever the transport would
answer. For the language "c#" (`q=c%23`) the request is not to the endpoint
followed by the language: `url.Parse` cuts the text at `#`, and the request is
to `/search/repositories?q=language:c`. And a body that is a JSON object with
an "items" array need not give a list: for `{"items":[1]}` the call fails with
a `*json.UnmarshalTypeError`. -/
theorem SearchRepositoriesByLanguage_counterexample :
    SearchRepositoriesByLanguage (stubWorld oneItemResponse) stubClient "\n" =
      ⟨none, some (.newRequest "net/url: invalid control character in URL"), []⟩ ∧
    (SearchRepositoriesByLanguage (stubWorld oneItemResponse) stubClient "\n").sent.length ≠ 1 ∧
    (SearchRepositoriesByLanguage (stubWorld oneItemResponse) stubClient "c#").sent =
      [searchRequest stubClient ⟨"https://api.github.com/search/repositories?q=language:c"⟩] ∧
    SearchRepositoriesByLanguage
        (stubWorld (stubResponse 200 "200 OK" [] "\x7b\"items\":[1]\x7d")) stubClient "go" =
      ⟨none, some (.unmarshalTypeError "json: cannot unmarshal"),
        [searchRequest stubClient
          ⟨"https://api.github.com/search/repositories?q=language:go"⟩]⟩ := by
  decide

/-- C7, amended. `SearchRepositoriesByLanguage` hands `http.NewRequest` the
method GET, no body and the URL text `searchText`: the base URL followed by
"/search/repositories?q=language:" and the language as it is.
* When `url.Parse` rejects that text, no request is handed to the transport
  and the error is returned; this is so whenever the text has an ASCII control
  character before its first `#`.
* When `url.Parse` accepts it, the transport is handed exactly one request: a
  GET without a body, with the Accept and Content-Type headers and, when the
  client has a token, the header `Authorization: token <token>`, to the URL
  that `url.Parse` made of the text. That URL is parsed from the text up to
  its first `#`, what follows being the fragment; a text without `#` is
  parsed whole.
* When that request is answered with a status below 400 and a body that is
  read whole and is a JSON object with one member whose key is "items"
  (compared as `encoding/json` compares keys), an array whose elements are
  each `null` or an object in which every member that names `name`,
  `language` or `updated_at` is a string or `null` and every member that names
  `stargazers_count` is an integer of 64 bits or `null`, it returns without
  error the repositories of the elements in the order of the array, each with
  `Name`, `Language`, `Stars` and `LastUpdated` taken from the last member
  that names `name`, `language`, `stargazers_count` and `updated_at` and is
  not `null` (the zero value when there is none); for an empty array, the
  empty list. -/
theorem SearchRepositoriesByLanguage_request_and_items {β : Type} (w : World β)
    (client : GitHubClient) (language : Language) :
    (∀ e, urlParse w (searchText client language) = .error e →
      SearchRepositoriesByLanguage w client language = ⟨none, some e, []⟩) ∧
    (urlHasControl (searchText client language) = true →
      SearchRepositoriesByLanguage w client language =
        ⟨none, some (.newRequest (w.text (.badURL
          (beforeFragment (searchText client language))))), []⟩) ∧
    (∀ u, urlParse w (searchText client language) = .ok u →
      (SearchRepositoriesByLanguage w client language).sent =
        [searchRequest client (w.removeEmptyPort u)]) ∧
    (∀ u, urlHasControl (searchText client language) = false →
      w.parseURL (beforeFragment (searchText client language)) = .ok u →
      afterFragment (searchText client language) = "" →
      (SearchRepositoriesByLanguage w client language).sent =
        [searchRequest client (w.removeEmptyPort u)]) ∧
    (∀ u, '#' ∉ (searchText client language).data →
      stringContainsCTLByte (searchText client language) = false →
      w.parseURL (searchText client language) = .ok u →
      (SearchRepositoriesByLanguage w client language).sent =
        [searchRequest client (w.removeEmptyPort u)]) ∧
    (∀ (req : Request) (resp : Response) (cs : List String)
        (pre post : List (String × JSON)) (k : String) (xs : List JSON),
      (SearchRepositoriesByLanguage w client language).sent = [req] →
      w.Do req = .ok resp → resp.StatusCode < 400 → resp.Body = readerOf cs none →
      parseJSON (concatChunks cs) = some (.object (pre ++ (k, .array xs) :: post)) →
      keyMatches "items" k = true →
      (∀ m ∈ pre, keyMatches "items" m.1 = false) →
      (∀ m ∈ post, keyMatches "items" m.1 = false) →
      (∀ x ∈ xs, elementFine x = true) →
      SearchRepositoriesByLanguage w client language =
        ⟨some (xs.map repositoryOf), none, [req]⟩) := by
  have hok : ∀ u, urlParse w (searchText client language) = .ok u →
      (SearchRepositoriesByLanguage w client language).sent =
        [searchRequest client (w.removeEmptyPort u)] := by
    intro u hu
    rw [SearchRepositoriesByLanguage_sent, makeRequest_cut, authRequest_search, hu]
    simp [authAnswer_sent]
  have herr : ∀ e, urlParse w (searchText client language) = .error e →
      SearchRepositoriesByLanguage w client language = ⟨none, some e, []⟩ := by
    intro e he
    simp [SearchRepositoriesByLanguage, makeRequest_cut, authRequest_search, he]
  refine ⟨herr, ?_, hok, ?_, ?_, ?_⟩
  · intro hc
    exact herr _ (by simp [urlParse, hc])
  · intro u hc hp hf
    exact hok u (by simp [urlParse, hc, hp, hf])
  · intro u hh hc hp
    exact hok u (by rw [urlParse_no_hash w _ hh]; simp [hc, hp])
  · intro req resp cs pre post k xs hsent hdo hlt hbody hparse hk hpre hpost hfine
    rw [SearchRepositoriesByLanguage_sent] at hsent
    have hreq := makeRequest_success w client "GET"
      ("/search/repositories" ++ ("?q=language:" ++ language)) none req resp cs
      hsent hdo hlt hbody
    simp [SearchRepositoriesByLanguage, hreq, bytesOf, Unmarshal, hparse, decodeSearch,
      decodeSearch_members _ pre post k xs hk hpre hpost hfine]

/-- C7 amended, at the specification's inputs: the one-item response gives a
one-element list with the fields of the item, `{"items":[]}` gives the empty
list and no error, and the request is the GET of
`/search/repositories?q=language:go`; for the language "c#" the request is the
GET of `/search/repositories?q=language:c`, and for the language "\n" no
request is made. -/
theorem SearchRepositoriesByLanguage_request_and_items_witness :
    (SearchRepositoriesByLanguage (stubWorld oneItemResponse) stubClient "go").sent =
      [{ Method := "GET",
         URL := ⟨"https://api.github.com/search/repositories?q=language:go"⟩,
         Header := [("Accept", ["application/vnd.github.v3+json"]),
                    ("Content-Type", ["application/json"]),
                    ("Authorization", ["token t"])],
         Body := "" }] ∧
    (SearchRepositoriesByLanguage (stubWorld oneItemResponse) stubClient "c#").sent =
      [searchRequest stubClient ⟨"https://api.github.com/search/repositories?q=language:c"⟩] ∧
    SearchRepositoriesByLanguage (stubWorld oneItemResponse) stubClient "go" =
      ⟨some [⟨"a", "Go", 5, "2020-01-01T00:00:00Z"⟩], none,
        [searchRequest stubClient
          ⟨"https://api.github.com/search/repositories?q=language:go"⟩]⟩ ∧
    SearchRepositoriesByLanguage
        (stubWorld (stubResponse 200 "200 OK" [] "\x7b\"items\":[]\x7d")) stubClient "go" =
      ⟨some [], none,
        [searchRequest stubClient
          ⟨"https://api.github.com/search/repositories?q=language:go"⟩]⟩ ∧
    SearchRepositoriesByLanguage (stubWorld oneItemResponse) stubClient "\n" =
      ⟨none, some (.newRequest "net/url: invalid control character in URL"), []⟩ :=
  ⟨((SearchRepositoriesByLanguage_request_and_items (stubWorld oneItemResponse) stubClient
      "go").2.2.2.2.1 ⟨"https://api.github.com/search/repositories?q=language:go"⟩
      (by decide) (by decide) rfl).trans (by decide),
   (SearchRepositoriesByLanguage_request_and_items (stubWorld oneItemResponse) stubClient
      "c#").2.2.2.1 ⟨"https://api.github.com/search/repositories?q=language:c"⟩
      (by decide) rfl (by decide),
   ((SearchRepositoriesByLanguage_request_and_items (stubWorld oneItemResponse) stubClient
      "go").2.2.2.2.2
      (searchRequest stubClient ⟨"https://api.github.com/search/repositories?q=language:go"⟩)
      oneItemResponse
      ["\x7b\"items\":[\x7b\"name\":\"a\",\"language\":\"Go\",\"stargazers_count\":5," ++
        "\"updated_at\":\"2020-01-01T00:00:00Z\"\x7d]\x7d"] [] [] "items"
      [.object [("name", .string "a"), ("language", .string "Go"),
        ("stargazers_count", .number "5"), ("updated_at", .string "2020-01-01T00:00:00Z")]]
      (by decide) rfl (by decide) rfl rfl (by decide) (by simp) (by simp)
      (by decide)).trans (by decide),
   (SearchRepositoriesByLanguage_request_and_items
      (stubWorld (stubResponse 200 "200 OK" [] "\x7b\"items\":[]\x7d")) stubClient
      "go").2.2.2.2.2
      (searchRequest stubClient ⟨"https://api.github.com/search/repositories?q=language:go"⟩)
      (stubResponse 200 "200 OK" [] "\x7b\"items\":[]\x7d") ["\x7b\"items\":[]\x7d"]
      [] [] "items" [] (by decide) rfl (by decide) rfl rfl (by decide) (by simp) (by simp)
      (by simp),
   (SearchRepositoriesByLanguage_request_and_items (stubWorld oneItemResponse) stubClient
      "\n").2.1 (by decide)⟩

/-! ## Theorems: the fuel of the reader -/

theorem skipSpace_length (cs : List Char) : (skipSpace cs).length ≤ cs.length := by
  induction cs with
  | nil => simp [skipSpace]
  | cons c cs ih =>
    simp only [skipSpace]
    split_ifs
    · exact Nat.le_succ_of_le ih
    · exact Nat.le_refl _

theorem tail_length_of_head (cs : List Char) (c : Char) (h : cs.head? = some c) :
    cs.tail.length + 1 = cs.length := by
  cases cs with
  | nil => simp at h
  | cons x xs => simp

theorem takeDigits_length (cs : List Char) : (takeDigits cs).2.length ≤ cs.length := by
  induction cs with
  | nil => simp [takeDigits]
  | cons c cs ih =>
    simp only [takeDigits]
    split_ifs
    · exact Nat.le_succ_of_le ih
    · exact Nat.le_refl _

theorem consResult_some (ch : Char) (o : Option (List Char × List Char)) (s r : List Char)
    (h : consResult ch o = some (s, r)) : ∃ s1, o = some (s1, r) := by
  cases o with
  | none => simp [consResult] at h
  | some p =>
    obtain ⟨s1, r1⟩ := p
    simp only [consResult, Option.some.injEq, Prod.mk.injEq] at h
    exact ⟨s1, by rw [h.2]⟩

/-- A scanned string literal ends before the end of the text it was read
from. -/
theorem scanString_length (fuel : Nat) (cs s r : List Char)
    (h : scanString fuel cs = some (s, r)) : r.length < cs.length := by
  induction fuel generalizing cs s r with
  | zero => simp [scanString] at h
  | succ fuel ih =>
    cases cs with
    | nil => simp [scanString] at h
    | cons c rest =>
      simp only [scanString] at h
      split_ifs at h with h1 h2 h3
      · simp only [Option.some.injEq, Prod.mk.injEq] at h
        rw [← h.2]; simp
      · cases rest with
        | nil => simp at h
        | cons e rest1 =>
          simp only [] at h
          have hdrop4 : (rest1.drop 4).length ≤ rest1.length := by simp
          have hdrop10 : (rest1.drop 10).length ≤ rest1.length := by simp
          split_ifs at h with hu
          · split at h
            · simp at h
            · split_ifs at h with hs
              · split at h
                · split_ifs at h with hp
                  · obtain ⟨s1, hrec⟩ := consResult_some _ _ _ _ h
                    have := ih _ _ _ hrec
                    simp only [List.length_cons]; omega
                  · obtain ⟨s1, hrec⟩ := consResult_some _ _ _ _ h
                    have := ih _ _ _ hrec
                    simp only [List.length_cons]; omega
                · obtain ⟨s1, hrec⟩ := consResult_some _ _ _ _ h
                  have := ih _ _ _ hrec
                  simp only [List.length_cons]; omega
              · obtain ⟨s1, hrec⟩ := consResult_some _ _ _ _ h
                have := ih _ _ _ hrec
                simp only [List.length_cons]; omega
          · split at h
            · simp at h
            · obtain ⟨s1, hrec⟩ := consResult_some _ _ _ _ h
              have := ih _ _ _ hrec
              simp only [List.length_cons]; omega
      · obtain ⟨s1, hrec⟩ := consResult_some _ _ _ _ h
        have := ih _ _ _ hrec
        simp only [List.length_cons]; omega

/-- The string scanner does not depend on its fuel once the fuel is the
length of the text. -/
theorem scanString_fuel (fuel : Nat) (cs : List Char) (h : cs.length ≤ fuel) :
    scanString (fuel + 1) cs = scanString fuel cs := by
  induction fuel generalizing cs with
  | zero =>
    cases cs with
    | nil => simp [scanString]
    | cons c rest => simp at h
  | succ fuel ih =>
    cases cs with
    | nil => simp [scanString]
    | cons c rest =>
      have hrest : rest.length ≤ fuel := by simpa using h
      simp only [scanString]
      cases rest with
      | nil => simp only [ih [] (Nat.zero_le _)]
      | cons e rest1 =>
        have hr1 : rest1.length ≤ fuel := by simp at hrest; omega
        have hd : ∀ n, (rest1.drop n).length ≤ fuel := fun n => by
          simp only [List.length_drop]; omega
        simp only [ih (e :: rest1) hrest, ih rest1 hr1, ih _ (hd 4), ih _ (hd 10)]

theorem scanFraction_length (cs fp r : List Char) (h : scanFraction cs = some (fp, r)) :
    r.length ≤ cs.length := by
  unfold scanFraction at h
  split at h
  · rename_i rest
    have hl := takeDigits_length rest
    split at h
    · simp at h
    · rename_i ds rest1 _ heq
      simp only [Option.some.injEq, Prod.mk.injEq] at h
      rw [heq] at hl
      rw [← h.2]
      simp only [List.length_cons]
      exact Nat.le_succ_of_le hl
  · simp only [Option.some.injEq, Prod.mk.injEq] at h
    rw [← h.2]

theorem scanSign_length (cs : List Char) : (scanSign cs).2.length ≤ cs.length := by
  cases cs with
  | nil => simp [scanSign]
  | cons s rest =>
    simp only [scanSign]
    split_ifs <;> simp

theorem scanExponent_length (cs ep r : List Char) (h : scanExponent cs = some (ep, r)) :
    r.length ≤ cs.length := by
  unfold scanExponent at h
  cases cs with
  | nil =>
    simp only [Option.some.injEq, Prod.mk.injEq] at h
    rw [← h.2]
  | cons e rest =>
    simp only [] at h
    split_ifs at h with he
    · have hs := scanSign_length rest
      have hl := takeDigits_length (scanSign rest).2
      split at h
      · simp at h
      · rename_i ds rest2 _ heq
        simp only [Option.some.injEq, Prod.mk.injEq] at h
        rw [heq] at hl
        rw [← h.2]
        simp only [List.length_cons]
        simp only [] at hl
        omega
    · simp only [Option.some.injEq, Prod.mk.injEq] at h
      rw [← h.2]

theorem scanUnsigned_length (cs lit r : List Char) (h : scanUnsigned cs = some (lit, r)) :
    r.length < cs.length := by
  unfold scanUnsigned at h
  cases cs with
  | nil => simp at h
  | cons d rest =>
    simp only [] at h
    have hint : ∀ ip r1,
        (if d == '0' then some (['0'], rest)
          else if d.isDigit then some (d :: (takeDigits rest).1, (takeDigits rest).2)
          else none) = some (ip, r1) → r1.length ≤ rest.length := by
      intro ip r1 hi
      split_ifs at hi
      · simp only [Option.some.injEq, Prod.mk.injEq] at hi
        rw [← hi.2]
      · simp only [Option.some.injEq, Prod.mk.injEq] at hi
        rw [← hi.2]
        exact takeDigits_length rest
    split at h
    · simp at h
    · rename_i ip r1 hi
      have h1 := hint ip r1 hi
      split at h
      · simp at h
      · rename_i fp r2 hf
        have h2 := scanFraction_length _ _ _ hf
        split at h
        · simp at h
        · rename_i ep r3 he
          have h3 := scanExponent_length _ _ _ he
          simp only [Option.some.injEq, Prod.mk.injEq] at h
          rw [← h.2]
          simp only [List.length_cons]
          omega

/-- A scanned number literal ends before the end of the text it was read
from. -/
theorem scanNumber_length (cs lit r : List Char) (h : scanNumber cs = some (lit, r)) :
    r.length < cs.length := by
  unfold scanNumber at h
  split at h
  · rename_i rest
    split at h
    · simp at h
    · rename_i lit1 r1 hu
      have := scanUnsigned_length _ _ _ hu
      simp only [Option.some.injEq, Prod.mk.injEq] at h
      rw [← h.2]
      simp only [List.length_cons]
      omega
  · exact scanUnsigned_length _ _ _ h

/-- A value, the elements of an array and the members of an object all end
before the end of the text they were read from. -/
theorem parse_length (fuel : Nat) :
    (∀ d cs v r, parseValue fuel d cs = some (v, r) → r.length < cs.length) ∧
    (∀ d cs vs r, parseElements fuel d cs = some (vs, r) → r.length < cs.length) ∧
    (∀ d cs ms r, parseMembers fuel d cs = some (ms, r) → r.length < cs.length) := by
  induction fuel with
  | zero => simp [parseValue, parseElements, parseMembers]
  | succ f ih =>
    obtain ⟨ihV, ihE, ihM⟩ := ih
    refine ⟨?_, ?_, ?_⟩
    · intro d cs v r h
      cases cs with
      | nil => simp [parseValue] at h
      | cons c rest =>
        simp only [parseValue] at h
        have hsk := skipSpace_length rest
        simp only [List.length_cons]
        split_ifs at h with h1 h2 h3 h4 h5 h6 h7 h8 h9 h10 h11 h12 h13 h14
        · simp only [Option.some.injEq, Prod.mk.injEq] at h
          rw [← h.2, List.length_drop]; omega
        · simp only [Option.some.injEq, Prod.mk.injEq] at h
          rw [← h.2, List.length_drop]; omega
        · simp only [Option.some.injEq, Prod.mk.injEq] at h
          rw [← h.2, List.length_drop]; omega
        · split at h
          · simp at h
          · rename_i s1 r1 hs
            have := scanString_length _ _ _ _ hs
            simp only [Option.some.injEq, Prod.mk.injEq] at h
            rw [← h.2]; omega
        · simp only [Option.some.injEq, Prod.mk.injEq] at h
          rw [← h.2, List.length_tail]; omega
        · split at h
          · simp at h
          · rename_i xs r1 hs
            have := ihE _ _ _ _ hs
            simp only [Option.some.injEq, Prod.mk.injEq] at h
            rw [← h.2]; omega
        · simp only [Option.some.injEq, Prod.mk.injEq] at h
          rw [← h.2, List.length_tail]; omega
        · split at h
          · simp at h
          · rename_i xs r1 hs
            have := ihM _ _ _ _ hs
            simp only [Option.some.injEq, Prod.mk.injEq] at h
            rw [← h.2]; omega
        · split at h
          · simp at h
          · rename_i lit r1 hs
            have := scanNumber_length _ _ _ hs
            simp only [Option.some.injEq, Prod.mk.injEq] at h
            simp only [List.length_cons] at this
            rw [← h.2]; omega
    · intro d cs vs r h
      simp only [parseElements] at h
      split at h
      · simp at h
      · rename_i v rest hv
        have h1 := ihV _ _ _ _ hv
        have hsk := skipSpace_length rest
        have hsk2 := skipSpace_length (skipSpace rest).tail
        split_ifs at h with hc hb
        · split at h
          · simp at h
          · rename_i vs1 r1 hs
            have := ihE _ _ _ _ hs
            simp only [Option.some.injEq, Prod.mk.injEq] at h
            simp only [List.length_tail] at hsk2
            rw [← h.2]; omega
        · simp only [Option.some.injEq, Prod.mk.injEq] at h
          rw [← h.2, List.length_tail]; omega
    · intro d cs ms r h
      simp only [parseMembers] at h
      split_ifs at h with hq
      have hq1 := tail_length_of_head cs _ hq
      split at h
      · simp at h
      · rename_i k rest1 hk
        have h1 := scanString_length _ _ _ _ hk
        have hsk1 := skipSpace_length rest1
        have hsk2 := skipSpace_length (skipSpace rest1).tail
        simp only [List.length_tail] at hsk2
        split_ifs at h with hcolon
        split at h
        · simp at h
        · rename_i v rest3 hv
          have h3 := ihV _ _ _ _ hv
          have hsk3 := skipSpace_length rest3
          have hsk4 := skipSpace_length (skipSpace rest3).tail
          simp only [List.length_tail] at hsk4
          split_ifs at h with hc hb
          · split at h
            · simp at h
            · rename_i ms1 r1 hs
              have := ihM _ _ _ _ hs
              simp only [Option.some.injEq, Prod.mk.injEq] at h
              rw [← h.2]; omega
          · simp only [Option.some.injEq, Prod.mk.injEq] at h
            rw [← h.2, List.length_tail]; omega

/-- Once the fuel is twice the length of the text and a little more, one more
unit of fuel changes nothing in what is read. -/
theorem parse_fuel (fuel : Nat) :
    (∀ d cs, 2 * cs.length + 1 ≤ fuel →
      parseValue (fuel + 1) d cs = parseValue fuel d cs) ∧
    (∀ d cs, 2 * cs.length + 2 ≤ fuel →
      parseElements (fuel + 1) d cs = parseElements fuel d cs) ∧
    (∀ d cs, 2 * cs.length + 2 ≤ fuel →
      parseMembers (fuel + 1) d cs = parseMembers fuel d cs) := by
  induction fuel with
  | zero =>
    refine ⟨?_, ?_, ?_⟩ <;> intro d cs h <;> omega
  | succ f ih =>
    obtain ⟨ihV, ihE, ihM⟩ := ih
    refine ⟨?_, ?_, ?_⟩
    · intro d cs h
      cases cs with
      | nil => simp [parseValue]
      | cons c rest =>
        have hsk := skipSpace_length rest
        simp only [List.length_cons] at h
        simp only [parseValue]
        rw [ihE (d + 1) (skipSpace rest) (by omega), ihM (d + 1) (skipSpace rest) (by omega)]
    · intro d cs h
      conv_lhs => unfold parseElements
      conv_rhs => unfold parseElements
      rw [ihV d cs (by omega)]
      cases hv : parseValue f d cs with
      | none => rfl
      | some p =>
        obtain ⟨v, rest⟩ := p
        have h1 := (parse_length f).1 _ _ _ _ hv
        have hsk := skipSpace_length rest
        have hsk2 := skipSpace_length (skipSpace rest).tail
        simp only [List.length_tail] at hsk2
        simp only []
        rw [ihE d (skipSpace (skipSpace rest).tail) (by omega)]
    · intro d cs h
      conv_lhs => unfold parseMembers
      conv_rhs => unfold parseMembers
      by_cases hq : cs.head? = some '"'
      · have hq1 := tail_length_of_head cs _ hq
        simp only [hq, if_true]
        cases hk : scanString (cs.tail.length + 1) cs.tail with
        | none => rfl
        | some p =>
          obtain ⟨k, rest1⟩ := p
          have h1 := scanString_length _ _ _ _ hk
          have hsk1 := skipSpace_length rest1
          have hsk2 := skipSpace_length (skipSpace rest1).tail
          simp only [List.length_tail] at hsk2
          simp only []
          rw [ihV d (skipSpace (skipSpace rest1).tail) (by omega)]
          cases hv : parseValue f d (skipSpace (skipSpace rest1).tail) with
          | none => rfl
          | some q =>
            obtain ⟨v, rest3⟩ := q
            have h3 := (parse_length f).1 _ _ _ _ hv
            have hsk3 := skipSpace_length rest3
            have hsk4 := skipSpace_length (skipSpace rest3).tail
            simp only [List.length_tail] at hsk4
            simp only []
            rw [ihM d (skipSpace (skipSpace rest3).tail) (by omega)]
      · simp only [hq, if_false]

/-- The fuel of `parseJSON` is enough: with any amount of fuel added, the text
is read the same. -/
theorem parseJSON_fuel (data : String) (extra : Nat) :
    parseWithFuel (2 * data.data.length + 2 + extra) data = parseJSON data := by
  have key : parseValue (2 * data.data.length + 2 + extra) 0 (skipSpace data.data) =
      parseValue (2 * data.data.length + 2) 0 (skipSpace data.data) := by
    induction extra with
    | zero => rfl
    | succ n ih =>
      have hsk := skipSpace_length data.data
      rw [← ih]
      exact (parse_fuel (2 * data.data.length + 2 + n)).1 0 (skipSpace data.data) (by omega)
  simp only [parseJSON, parseWithFuel, key]

end CvSite
